import Mathlib

/-!
Verification of the token module of the-budget-app-server-rust
(src/utils/auth_token.rs), as a shallow embedding over byte lists.

Bytes are modelled as `Nat` values below 256 and byte strings as `List Nat`.
Rust `&str`/`String` values are modelled by their UTF-8 byte lists.
-/

deriving instance DecidableEq for Except

set_option maxRecDepth 100000

set_option maxHeartbeats 1000000

namespace BudgetApp

/-- Truncation to 32 bits, modelling `u32` wrap-around arithmetic. -/
def w32 (n : Nat) : Nat := n % 4294967296

/-- Right rotation of a 32-bit word by `n` places. -/
def rotr (n x : Nat) : Nat := w32 ((x >>> n) ||| (x <<< (32 - n)))

/-- SHA-256 `Ch` function. -/
def shaCh (e f g : Nat) : Nat := (e &&& f) ^^^ ((e ^^^ 4294967295) &&& g)

/-- SHA-256 `Maj` function. -/
def shaMaj (a b c : Nat) : Nat := (a &&& b) ^^^ (a &&& c) ^^^ (b &&& c)

/-- SHA-256 big sigma 0. -/
def bsig0 (x : Nat) : Nat := rotr 2 x ^^^ rotr 13 x ^^^ rotr 22 x

/-- SHA-256 big sigma 1. -/
def bsig1 (x : Nat) : Nat := rotr 6 x ^^^ rotr 11 x ^^^ rotr 25 x

/-- SHA-256 small sigma 0. -/
def ssig0 (x : Nat) : Nat := rotr 7 x ^^^ rotr 18 x ^^^ (x >>> 3)

/-- SHA-256 small sigma 1. -/
def ssig1 (x : Nat) : Nat := rotr 17 x ^^^ rotr 19 x ^^^ (x >>> 10)

/-- The 64 SHA-256 round constants. -/
def shaK : List Nat :=
  [1116352408, 1899447441, 3049323471, 3921009573, 961987163, 1508970993,
   2453635748, 2870763221, 3624381080, 310598401, 607225278, 1426881987,
   1925078388, 2162078206, 2614888103, 3248222580, 3835390401, 4022224774,
   264347078, 604807628, 770255983, 1249150122, 1555081692, 1996064986,
   2554220882, 2821834349, 2952996808, 3210313671, 3336571891, 3584528711,
   113926993, 338241895, 666307205, 773529912, 1294757372, 1396182291,
   1695183700, 1986661051, 2177026350, 2456956037, 2730485921, 2820302411,
   3259730800, 3345764771, 3516065817, 3600352804, 4094571909, 275423344,
   430227734, 506948616, 659060556, 883997877, 958139571, 1322822218,
   1537002063, 1747873779, 1955562222, 2024104815, 2227730452, 2361852424,
   2428436474, 2756734187, 3204031479, 3329325298]

/-- The SHA-256 initial hash state. -/
def shaH0 : List Nat :=
  [1779033703, 3144134277, 1013904242, 2773480762,
   1359893119, 2600822924, 528734635, 1541459225]

/-- Message-schedule extension: prepend `count` further words to the reversed
word list `acc` (newest word first). -/
def schedAux : Nat → List Nat → List Nat
  | 0, acc => acc
  | count + 1, acc =>
    let v := w32 (ssig1 (acc.getD 1 0) + acc.getD 6 0 + ssig0 (acc.getD 14 0) + acc.getD 15 0)
    schedAux count (v :: acc)

/-- Expand a 16-word block into the 64-word SHA-256 message schedule. -/
def schedule (block : List Nat) : List Nat := (schedAux 48 block.reverse).reverse

/-- One SHA-256 compression round, on the working state `[a,b,c,d,e,f,g,h]`
with schedule word and round constant `wk`. -/
def shaRound (st : List Nat) (wk : Nat × Nat) : List Nat :=
  match st with
  | [a, b, c, d, e, f, g, h] =>
    let t1 := w32 (h + bsig1 e + shaCh e f g + wk.2 + wk.1)
    let t2 := w32 (bsig0 a + shaMaj a b c)
    [w32 (t1 + t2), a, b, c, w32 (d + t1), e, f, g]
  | other => other

/-- SHA-256 compression of a 16-word block into the running hash state. -/
def compressBlock (hs block : List Nat) : List Nat :=
  let fin := ((schedule block).zip shaK).foldl shaRound hs
  match hs, fin with
  | [a, b, c, d, e, f, g, h], [a2, b2, c2, d2, e2, f2, g2, h2] =>
    [w32 (a + a2), w32 (b + b2), w32 (c + c2), w32 (d + d2),
     w32 (e + e2), w32 (f + f2), w32 (g + g2), w32 (h + h2)]
  | _, _ => hs

/-- Big-endian 4-byte encoding of a 32-bit word. -/
def be32 (n : Nat) : List Nat :=
  [(n / 16777216) % 256, (n / 65536) % 256, (n / 256) % 256, n % 256]

/-- Big-endian 8-byte encoding of a 64-bit length. -/
def be64 (n : Nat) : List Nat :=
  [(n / 72057594037927936) % 256, (n / 281474976710656) % 256,
   (n / 1099511627776) % 256, (n / 4294967296) % 256,
   (n / 16777216) % 256, (n / 65536) % 256, (n / 256) % 256, n % 256]

/-- Combine bytes into big-endian 32-bit words. -/
def bytesToWords : List Nat → List Nat
  | b0 :: b1 :: b2 :: b3 :: rest => (b0 * 16777216 + b1 * 65536 + b2 * 256 + b3) :: bytesToWords rest
  | _ => []

/-- SHA-256 padding: append `0x80`, zero bytes to 56 mod 64, then the 64-bit
bit length. -/
def sha256pad (msg : List Nat) : List Nat :=
  msg ++ 128 :: List.replicate ((64 - (msg.length + 9) % 64) % 64) 0 ++ be64 (msg.length * 8)

/-- Fold the compression function across successive 16-word blocks. -/
def processWords : List Nat → List Nat → List Nat
  | hs, w0 :: w1 :: w2 :: w3 :: w4 :: w5 :: w6 :: w7 :: w8 :: w9 :: w10 :: w11 :: w12 :: w13 :: w14 :: w15 :: rest =>
    processWords (compressBlock hs [w0, w1, w2, w3, w4, w5, w6, w7, w8, w9, w10, w11, w12, w13, w14, w15]) rest
  | hs, _ => hs

/-- SHA-256 of a byte list, as 32 digest bytes. -/
def sha256 (msg : List Nat) : List Nat :=
  (processWords shaH0 (bytesToWords (sha256pad msg))).flatMap be32

/-- HMAC-SHA256 (RFC 2104), modelling `Hmac::<Sha256>` from the `hmac` crate:
keys longer than the 64-byte block are first hashed, shorter keys are
zero-padded. -/
def hmac_sha256 (key msg : List Nat) : List Nat :=
  let k0 := if key.length > 64 then sha256 key else key
  let kp := k0 ++ List.replicate (64 - k0.length) 0
  sha256 ((kp.map (fun b => b ^^^ 92)) ++ sha256 ((kp.map (fun b => b ^^^ 54)) ++ msg))

/-- ASCII code of position `n` of the base64url alphabet
(`A-Z`, `a-z`, `0-9`, `-`, `_`). -/
def b64char (n : Nat) : Nat :=
  if n < 26 then 65 + n
  else if n < 52 then 97 + (n - 26)
  else if n < 62 then 48 + (n - 52)
  else if n = 62 then 45
  else 95

/-- Alphabet position of an ASCII code, or `none` for a character outside the
base64url alphabet. -/
def b64index (c : Nat) : Option Nat :=
  if 65 ≤ c ∧ c ≤ 90 then some (c - 65)
  else if 97 ≤ c ∧ c ≤ 122 then some (c - 97 + 26)
  else if 48 ≤ c ∧ c ≤ 57 then some (c - 48 + 52)
  else if c = 45 then some 62
  else if c = 95 then some 63
  else none

/-- Model of `base64::encode_config(_, base64::URL_SAFE_NO_PAD)`: base64url without
padding, three input bytes per four output characters. -/
def base64url_encode : List Nat → List Nat
  | b0 :: b1 :: b2 :: rest =>
    b64char (b0 / 4) :: b64char ((b0 % 4) * 16 + b1 / 16) ::
      b64char ((b1 % 16) * 4 + b2 / 64) :: b64char (b2 % 64) :: base64url_encode rest
  | [b0, b1] => [b64char (b0 / 4), b64char ((b0 % 4) * 16 + b1 / 16), b64char ((b1 % 16) * 4)]
  | [b0] => [b64char (b0 / 4), b64char ((b0 % 4) * 16)]
  | [] => []

/-- Model of `base64::decode_config(_, base64::URL_SAFE_NO_PAD)`: rejects characters
outside the alphabet, a trailing group of one character, and non-zero unused
trailing bits in the final character (`InvalidLastSymbol`). -/
def base64url_decode : List Nat → Option (List Nat)
  | c0 :: c1 :: c2 :: c3 :: rest => do
    let n0 ← b64index c0
    let n1 ← b64index c1
    let n2 ← b64index c2
    let n3 ← b64index c3
    let tail ← base64url_decode rest
    pure ((n0 * 4 + n1 / 16) :: ((n1 % 16) * 16 + n2 / 4) :: ((n2 % 4) * 64 + n3) :: tail)
  | [c0, c1, c2] => do
    let n0 ← b64index c0
    let n1 ← b64index c1
    let n2 ← b64index c2
    if n2 % 4 = 0 then pure [n0 * 4 + n1 / 16, (n1 % 16) * 16 + n2 / 4] else none
  | [c0, c1] => do
    let n0 ← b64index c0
    let n1 ← b64index c1
    if n1 % 16 = 0 then pure [n0 * 4 + n1 / 16] else none
  | [_] => none
  | [] => some []

/-- Lowercase hex digit of a value below 16, as in `hex::encode`. -/
def hexDigit (n : Nat) : Nat := if n < 10 then 48 + n else 87 + n

/-- Model of `hex::encode`: two lowercase hex characters per byte. -/
def hex_encode : List Nat → List Nat
  | [] => []
  | b :: rest => hexDigit (b / 16) :: hexDigit (b % 16) :: hex_encode rest

/-- Value of a hex character; `hex::decode` accepts both cases. -/
def hexVal (c : Nat) : Option Nat :=
  if 48 ≤ c ∧ c ≤ 57 then some (c - 48)
  else if 97 ≤ c ∧ c ≤ 102 then some (c - 87)
  else if 65 ≤ c ∧ c ≤ 70 then some (c - 55)
  else none

/-- Model of `hex::decode`: fails on odd length or a non-hex character. -/
def hex_decode : List Nat → Option (List Nat)
  | [] => some []
  | [_] => none
  | c0 :: c1 :: rest => do
    let h ← hexVal c0
    let l ← hexVal c1
    let tail ← hex_decode rest
    pure ((h * 16 + l) :: tail)

/-- UTF-8 bytes of an ASCII string literal (used only for literals whose
characters are all below 128). -/
def asciiBytes (s : String) : List Nat := s.toList.map Char.toNat

/-- serde_json string escaping for one byte: `"` and `\` get two-character
escapes, the five named control characters get `\b \t \n \f \r`, the other
control bytes get `\u00xx` with lowercase hex, and everything else is copied
verbatim (non-ASCII UTF-8 bytes pass through unescaped). -/
def escChar (b : Nat) : List Nat :=
  if b = 34 then [92, 34]
  else if b = 92 then [92, 92]
  else if b = 8 then [92, 98]
  else if b = 9 then [92, 116]
  else if b = 10 then [92, 110]
  else if b = 12 then [92, 102]
  else if b = 13 then [92, 114]
  else if b < 32 then [92, 117, 48, 48, hexDigit (b / 16), hexDigit (b % 16)]
  else [b]

/-- Escaping performed by serde_json on the UTF-8 bytes of a string. -/
def escapeJsonString (s : List Nat) : List Nat := s.flatMap escChar

/-- Decimal digits of `n`, most significant first, with recursion fuel
(30 covers every `u64`). -/
def natToDecAux : Nat → Nat → List Nat
  | 0, _ => []
  | fuel + 1, n => if n < 10 then [48 + n] else natToDecAux fuel (n / 10) ++ [48 + n % 10]

/-- serde_json decimal rendering of an unsigned integer. -/
def natToDec (n : Nat) : List Nat := natToDecAux 30 n

/-- Exactly `width` hex digits of `n`, most significant first, zero padded. -/
def toHexFixed : Nat → Nat → List Nat
  | 0, _ => []
  | width + 1, n => toHexFixed width (n / 16) ++ [hexDigit (n % 16)]

/-- Hyphenated lowercase rendering of a 128-bit UUID value, as produced by
serde serialization of `uuid::Uuid` (8-4-4-4-12 hex digits). -/
def uuidHyphenated (u : Nat) : List Nat :=
  toHexFixed 8 (u / 16 ^ 24) ++ 45 :: toHexFixed 4 (u / 16 ^ 20 % 16 ^ 4) ++
    45 :: toHexFixed 4 (u / 16 ^ 16 % 16 ^ 4) ++ 45 :: toHexFixed 4 (u / 16 ^ 12 % 16 ^ 4) ++
    45 :: toHexFixed 12 (u % 16 ^ 12)

/-- Greedily consume decimal digits, extending the accumulator. -/
def parseNatAux : List Nat → Nat → Nat × List Nat
  | c :: rest, acc =>
    if 48 ≤ c ∧ c ≤ 57 then parseNatAux rest (acc * 10 + (c - 48)) else (acc, c :: rest)
  | [], acc => (acc, [])

/-- JSON unsigned-integer parsing: at least one digit, no leading zero
(serde_json rejects `0` followed by another digit). -/
def parseNat : List Nat → Option (Nat × List Nat)
  | [] => none
  | c :: rest =>
    if c = 48 then
      match rest with
      | [] => some (0, [])
      | c2 :: _ => if 48 ≤ c2 ∧ c2 ≤ 57 then none else some (0, rest)
    else if 49 ≤ c ∧ c ≤ 57 then some (parseNatAux rest (c - 48)) else none

/-- UTF-8 encoding of a code point (surrogate pairing of `\uXXXX` escapes is
not modelled; only code points below `0x80` arise in this development). -/
def utf8enc (n : Nat) : List Nat :=
  if n < 128 then [n]
  else if n < 2048 then [192 + n / 64, 128 + n % 64]
  else [224 + n / 4096, 128 + n / 64 % 64, 128 + n % 64]

/-- The single-character JSON escapes: the byte denoted by `\e` for each
escape character `e` accepted by serde_json other than `\u`. -/
def escCode (e : Nat) : Option Nat :=
  if e = 34 then some 34
  else if e = 92 then some 92
  else if e = 47 then some 47
  else if e = 98 then some 8
  else if e = 116 then some 9
  else if e = 110 then some 10
  else if e = 102 then some 12
  else if e = 114 then some 13
  else none

/-- JSON string-body parsing as in serde_json: consume bytes up to the closing
quote, decoding the escape sequences and rejecting raw control bytes and a
missing closing quote.  Returns the decoded bytes and the input after the
closing quote. -/
def parseStringAux : List Nat → Option (List Nat × List Nat)
  | [] => none
  | c :: rest =>
    if c = 34 then some ([], rest)
    else if c = 92 then
      match rest with
      | [] => none
      | e :: rest2 =>
        if e = 117 then
          match rest2 with
          | h1 :: h2 :: h3 :: h4 :: rest3 =>
            (match hexVal h1, hexVal h2, hexVal h3, hexVal h4 with
             | some v1, some v2, some v3, some v4 =>
               (fun p => (utf8enc (v1 * 4096 + v2 * 256 + v3 * 16 + v4) ++ p.1, p.2)) <$>
                 parseStringAux rest3
             | _, _, _, _ => none)
          | _ => none
        else
          match escCode e with
          | some b => (fun p => (b :: p.1, p.2)) <$> parseStringAux rest2
          | none => none
    else if c < 32 then none
    else (fun p => (c :: p.1, p.2)) <$> parseStringAux rest

/-- Consume exactly `width` hex digits, extending the accumulator. -/
def parseHexFixed : Nat → List Nat → Nat → Option (Nat × List Nat)
  | 0, l, acc => some (acc, l)
  | width + 1, c :: rest, acc => do
    let v ← hexVal c
    parseHexFixed width rest (acc * 16 + v)
  | _ + 1, [], _ => none

/-- Strip the literal `pat` from the front of `s`. -/
def stripLit : List Nat → List Nat → Option (List Nat)
  | [], s => some s
  | p :: ps, c :: cs => if c = p then stripLit ps cs else none
  | _ :: _, [] => none

/-- Model of `uuid::Uuid` parsing of the bytes of a string, restricted to the hyphenated
8-4-4-4-12 form the crate itself renders (the crate also accepts other
layouts, none of which occur in this development). -/
def uuidGroup (width : Nat) (st : Option (Nat × List Nat)) : Option (Nat × List Nat) :=
  match st with
  | none => none
  | some (acc, s) =>
    match stripLit [45] s with
    | none => none
    | some s1 => parseHexFixed width s1 acc

def uuidFromBytes (s : List Nat) : Option Nat :=
  match uuidGroup 12 (uuidGroup 4 (uuidGroup 4 (uuidGroup 4 (parseHexFixed 8 s 0)))) with
  | some (v, []) => some v
  | _ => none

/-- The claim set of src/utils/auth_token.rs (`struct TokenClaims`): `exp` is a
`u64` count of seconds since the epoch, `uid` a 128-bit UUID, `eml`/`cur` the
UTF-8 bytes of strings, `typ` a `u8` wire code, `slt` a `u32` salt. -/
structure TokenClaims where
  exp : Nat
  uid : Nat
  eml : List Nat
  cur : List Nat
  typ : Nat
  slt : Nat
deriving DecidableEq, Repr

/-- Range constraints carried in Rust by the field types of `TokenClaims`. -/
def TokenClaims.WF (c : TokenClaims) : Prop :=
  c.exp < 2 ^ 64 ∧ c.uid < 2 ^ 128 ∧ c.typ < 2 ^ 8 ∧ c.slt < 2 ^ 32 ∧
    (∀ b ∈ c.eml, b < 256) ∧ (∀ b ∈ c.cur, b < 256)

instance (c : TokenClaims) : Decidable c.WF := by
  unfold TokenClaims.WF
  infer_instance

/-- Model of `serde_json::to_vec` on `TokenClaims`: the derived serializer emits the
fields in declaration order with no whitespace. -/
def TokenClaims.to_json (c : TokenClaims) : List Nat :=
  123 :: asciiBytes "\"exp\":" ++ natToDec c.exp ++
    asciiBytes ",\"uid\":\"" ++ uuidHyphenated c.uid ++
    34 :: asciiBytes ",\"eml\":\"" ++ escapeJsonString c.eml ++
    34 :: asciiBytes ",\"cur\":\"" ++ escapeJsonString c.cur ++
    34 :: asciiBytes ",\"typ\":" ++ natToDec c.typ ++
    asciiBytes ",\"slt\":" ++ natToDec c.slt ++ [125]

/-- Model of `serde_json::from_str::<TokenClaims>`, modelled on the canonical field
order and spacing that `serde_json::to_vec` produces.  serde_json additionally
accepts inter-token whitespace, reordered fields and unknown fields; every
string parsed in this development has the canonical shape.  The range guards
mirror the serde `u64`/`u8`/`u32` deserializers, and the trailing-input guard
mirrors `from_str` rejecting trailing characters. -/
def parseBoundedNat (bound : Nat) (key s : List Nat) : Option (Nat × List Nat) :=
  (stripLit key s).bind fun s1 =>
    (parseNat s1).bind fun p => if p.1 < bound then some p else none

/-- Parse one string field: the key literal (ending in the opening quote)
followed by the string body through its closing quote. -/
def parseStringField (key s : List Nat) : Option (List Nat × List Nat) :=
  (stripLit key s).bind fun s1 => parseStringAux s1

def parseClaims (s : List Nat) : Option TokenClaims :=
  (parseBoundedNat (2 ^ 64) (123 :: asciiBytes "\"exp\":") s).bind fun pe =>
  (parseStringField (asciiBytes ",\"uid\":\"") pe.2).bind fun pu =>
  (uuidFromBytes pu.1).bind fun uid =>
  (parseStringField (asciiBytes ",\"eml\":\"") pu.2).bind fun pm =>
  (parseStringField (asciiBytes ",\"cur\":\"") pm.2).bind fun pc =>
  (parseBoundedNat (2 ^ 8) (asciiBytes ",\"typ\":") pc.2).bind fun pt =>
  (parseBoundedNat (2 ^ 32) (asciiBytes ",\"slt\":") pt.2).bind fun ps =>
  if ps.2 = [125] then
    some { exp := pe.1, uid := uid, eml := pm.1, cur := pc.1, typ := pt.1, slt := ps.1 }
  else none

/-- The error taxonomy of src/utils/auth_token.rs (`enum TokenError`).  The
`DatabaseError` payload is the storage error; `InvalidTokenType` carries the
raw wire code of the offending `NoMatchForValue` value. -/
inductive DbError where
  | notFound
  | connectionError
deriving DecidableEq, Repr

inductive TokenError where
  | databaseError (e : DbError)
  | invalidTokenType (v : Nat)
  | tokenInvalid
  | tokenBlacklisted
  | tokenExpired
  | systemResourceAccessFailure
  | wrongTokenType
deriving DecidableEq, Repr

/-- Model of `enum TokenType` of src/utils/auth_token.rs. -/
inductive TokenType where
  | access
  | refresh
  | signIn
deriving DecidableEq, Repr

/-- Model of `TokenType::try_from::<u8>`: 0, 1, 2 map to the three kinds, anything else
is `NoMatchForValue(v)` (surfaced by callers as `InvalidTokenType`). -/
def TokenType.try_from (value : Nat) : Except Nat TokenType :=
  if value = 0 then .ok .access
  else if value = 1 then .ok .refresh
  else if value = 2 then .ok .signIn
  else .error value

/-- Model of `u8::from(TokenType)`. -/
def TokenType.toWire : TokenType → Nat
  | .access => 0
  | .refresh => 1
  | .signIn => 2

/-- Model of `TokenClaims::create_token`: serialize the claims, HMAC-SHA256 them under
`key`, append the `|` delimiter (byte 124) and the lowercase hex of the MAC,
and base64url-encode the whole buffer without padding. -/
def TokenClaims.create_token (c : TokenClaims) (key : List Nat) : List Nat :=
  let claims_json := c.to_json
  base64url_encode (claims_json ++ 124 :: hex_encode (hmac_sha256 key claims_json))

/-- Model of `str::split('|')` at the byte level: the list of segments between
occurrences of byte 124 (`String::from_utf8_lossy` is modelled as the identity
on the decoded bytes; it is the identity on valid UTF-8, and no byte of an
invalid sequence or of its U+FFFD replacement equals 124). -/
def splitOnBar : List Nat → List (List Nat)
  | [] => [[]]
  | c :: rest =>
    if c = 124 then [] :: splitOnBar rest
    else
      match splitOnBar rest with
      | p :: ps => (c :: p) :: ps
      | [] => [[c]]

/-- The `while let` loop of `token_to_claims_and_hash` for the parts with a
successor (`claims_json_str`): all segments but the last, concatenated without
the delimiters. -/
def joinInit : List (List Nat) → List Nat
  | [] => []
  | [_] => []
  | p :: ps => p ++ joinInit ps

/-- The `while let` loop of `token_to_claims_and_hash` for the final part
(`hash_str`): the last segment. -/
def lastPart : List (List Nat) → List Nat
  | [] => []
  | [p] => p
  | _ :: ps => lastPart ps

/-- The claims text that `token_to_claims_and_hash` hands to the claims
deserializer: every `|`-separated segment of the decoded buffer except the
last, concatenated. -/
def token_claims_segment (decoded : List Nat) : List Nat := joinInit (splitOnBar decoded)

/-- The hex-MAC text of `token_to_claims_and_hash`: the last `|`-separated
segment of the decoded buffer. -/
def token_hash_segment (decoded : List Nat) : List Nat := lastPart (splitOnBar decoded)

/-- Model of `TokenClaims::token_to_claims_and_hash`: base64url-decode the token,
split the buffer on `|`, concatenate every segment except the last into the
claims text, deserialize the claims, hex-decode the last segment into the MAC
bytes; any failure is `TokenInvalid`. -/
def token_to_claims_and_hash (token : List Nat) :
    Except TokenError (TokenClaims × List Nat × List Nat) :=
  match base64url_decode token with
  | none => .error .tokenInvalid
  | some decoded =>
    let claims_json_str := token_claims_segment decoded
    let hash_str := token_hash_segment decoded
    match parseClaims claims_json_str with
    | none => .error .tokenInvalid
    | some claims =>
      match hex_decode hash_str with
      | none => .error .tokenInvalid
      | some hash => .ok (claims, claims_json_str, hash)

/-- Model of `TokenClaims::from_token_with_validation`.  The `SystemTime::now()` read
is modelled by the explicit parameter `now` (seconds since the epoch; the
pre-epoch `SystemResourceAccessFailure` branch is unreachable for a `Nat`
clock).  The expiration test precedes MAC verification, exactly as in the
source; `Mac::verify_slice` is equality of the recomputed tag with the decoded
hash bytes. -/
def from_token_with_validation (token key : List Nat) (now : Nat) :
    Except TokenError TokenClaims :=
  match token_to_claims_and_hash token with
  | .error e => .error e
  | .ok (claims, claims_json_str, hash) =>
    if now ≥ claims.exp then .error .tokenExpired
    else if hmac_sha256 key claims_json_str = hash then .ok claims
    else .error .tokenInvalid

/-- Model of `TokenClaims::from_token_without_validation`. -/
def from_token_without_validation (token : List Nat) : Except TokenError TokenClaims :=
  match token_to_claims_and_hash token with
  | .error e => .error e
  | .ok (claims, _, _) => .ok claims

/-- A row of the `blacklisted_tokens` table (src/schema.rs): the literal token
string, the owning user id, and the expiration as an `i64`. -/
structure BlacklistedToken where
  token : List Nat
  user_id : Nat
  token_expiration_time : Int
deriving DecidableEq, Repr

/-- The external store as seen through `DbConnection`: the persisted
`blacklisted_tokens` rows, plus a flag modelling an unreachable store (every
query then fails with a non-`NotFound` error). -/
structure DbState where
  rows : List BlacklistedToken
  broken : Bool
deriving DecidableEq, Repr

/-- The diesel query of `is_on_blacklist`:
`blacklisted_tokens.filter(token.eq(token)).limit(1).get_result(..)` — the
first row whose `token` column equals the literal token string, `NotFound`
when there is none, a connection error when the store is unreachable. -/
def dbFindToken (db : DbState) (token : List Nat) : Except DbError BlacklistedToken :=
  if db.broken then .error .connectionError
  else
    match db.rows.find? (fun r => r.token = token) with
    | some r => .ok r
    | none => .error .notFound

/-- The diesel insert of `blacklist_token`: appends the new row and returns it,
failing when the store is unreachable. -/
def dbInsertToken (db : DbState) (row : BlacklistedToken) :
    Except DbError (BlacklistedToken × DbState) :=
  if db.broken then .error .connectionError
  else .ok (row, { rows := db.rows ++ [row], broken := db.broken })

/-- Model of `is_on_blacklist`: `Ok(true)` when the lookup returns a row, `Ok(false)` on
any query error — `NotFound` and storage failures alike. -/
def is_on_blacklist (token : List Nat) (db : DbState) : Except TokenError Bool :=
  match dbFindToken db token with
  | .ok _ => .ok true
  | .error _ => .ok false

/-- Model of `blacklist_token`: read the claims without validation, reject an
expiration that does not fit in an `i64`, then insert
`{token, user_id, token_expiration_time}`; an insert failure is
`DatabaseError`. -/
def blacklist_token (token : List Nat) (db : DbState) :
    Except TokenError (BlacklistedToken × DbState) :=
  match from_token_without_validation token with
  | .error e => .error e
  | .ok decoded =>
    if decoded.exp < 2 ^ 63 then
      let row : BlacklistedToken :=
        { token := token, user_id := decoded.uid, token_expiration_time := (decoded.exp : Int) }
      match dbInsertToken db row with
      | .ok r => .ok r
      | .error e => .error (.databaseError e)
    else .error .tokenInvalid

/-- Model of `validate_token`: decode with validation under the configured signing key
(passed here as the `key` parameter, since `env::CONF` is configuration, not
code), decode the wire type through `TokenType::try_from`, and compare the
discriminant against the expected kind. -/
def validate_token (token : List Nat) (token_type : TokenType) (key : List Nat) (now : Nat) :
    Except TokenError TokenClaims :=
  match from_token_with_validation token key now with
  | .error e => .error e
  | .ok decoded =>
    match TokenType.try_from decoded.typ with
    | .error v => .error (.invalidTokenType v)
    | .ok t => if t ≠ token_type then .error .wrongTokenType else .ok decoded

/-- Model of `validate_access_token`. -/
def validate_access_token (token key : List Nat) (now : Nat) : Except TokenError TokenClaims :=
  validate_token token .access key now

/-- Model of `validate_refresh_token`: consult the blacklist first (a `?`-propagated
failure or a hit short-circuits), then validate as a refresh token. -/
def validate_refresh_token (token : List Nat) (db : DbState) (key : List Nat) (now : Nat) :
    Except TokenError TokenClaims :=
  match is_on_blacklist token db with
  | .error e => .error e
  | .ok true => .error .tokenBlacklisted
  | .ok false => validate_token token .refresh key now

/-- Model of `validate_signin_token`. -/
def validate_signin_token (token key : List Nat) (now : Nat) : Except TokenError TokenClaims :=
  validate_token token .signIn key now

/-- The `Lifetimes` section of the configuration (src/env.rs), all `u64`
minutes/days counts. -/
structure Lifetimes where
  access_token_lifetime_mins : Nat
  refresh_token_lifetime_days : Nat
  otp_lifetime_mins : Nat
deriving DecidableEq, Repr

/-- The `lifetime_sec` match of `generate_token`, with `u64` wrap-around made
explicit: minutes times 60 for Access, days times 24*60*60 for Refresh, and
OTP minutes times 60 times 2 for SignIn. -/
def lifetime_sec (lt : Lifetimes) : TokenType → Nat
  | .access => lt.access_token_lifetime_mins * 60 % 2 ^ 64
  | .refresh => lt.refresh_token_lifetime_days * 24 * 60 * 60 % 2 ^ 64
  | .signIn => lt.otp_lifetime_mins * 60 * 2 % 2 ^ 64

/-- The `TokenParams` borrow struct of src/utils/auth_token.rs. -/
structure TokenParams where
  user_id : Nat
  user_email : List Nat
  user_currency : List Nat
deriving DecidableEq, Repr

/-- The claims built by `generate_token`: expiration is the clock reading plus
the per-kind lifetime (`u64` addition), the salt is the value drawn from
`rand::thread_rng().gen_range(1..u32::MAX)`, both supplied as parameters. -/
def generate_token_claims (params : TokenParams) (token_type : TokenType) (lt : Lifetimes)
    (now salt : Nat) : TokenClaims :=
  { exp := (now + lifetime_sec lt token_type) % 2 ^ 64
    uid := params.user_id
    eml := params.user_email
    cur := params.user_currency
    typ := token_type.toWire
    slt := salt }

/-- The `Token` struct: the transport string and the kind it was issued as. -/
structure Token where
  token : List Nat
  token_type : TokenType
deriving DecidableEq, Repr

/-- Model of `generate_token`, with the clock reading, the random salt and the
configured signing key and lifetimes as explicit parameters. -/
def generate_token (params : TokenParams) (token_type : TokenType) (lt : Lifetimes)
    (now salt : Nat) (key : List Nat) : Token :=
  { token := (generate_token_claims params token_type lt now salt).create_token key
    token_type := token_type }

/-- Display of `TokenTypeError::NoMatchForValue(v)`. -/
def tokenTypeErrorMsg (v : Nat) : List Nat := asciiBytes "NoMatchForValue: " ++ natToDec v

/-- Display of the `diesel::result::Error` payload (external collaborator;
rendered abstractly, the exact text does not matter to any claim). -/
def dbErrorMsg : DbError → List Nat
  | .notFound => asciiBytes "Record not found"
  | .connectionError => asciiBytes "connection error"

/-- Model of `impl fmt::Display for TokenError`, with recursion fuel.  The source
match has explicit arms for `DatabaseError` and `InvalidTokenType` and a
catch-all arm `_ => write!(f, "Error: {}", self)` that formats `self` again;
that recursive call costs one unit of fuel, so a `none` result at every fuel
means the formatting never terminates. -/
def tokenErrorDisplay : Nat → TokenError → Option (List Nat)
  | _, .databaseError e => some (asciiBytes "DatabaseError: " ++ dbErrorMsg e)
  | _, .invalidTokenType v => some (asciiBytes "InvalidTokenType: " ++ tokenTypeErrorMsg v)
  | 0, _ => none
  | fuel + 1, e => (tokenErrorDisplay fuel e).map (fun s => asciiBytes "Error: " ++ s)

/-! ### Round-trip lemmas for the encoding primitives -/

theorem stripLit_pre (p s : List Nat) : stripLit p (p ++ s) = some s := by
  induction p with
  | nil => rfl
  | cons c cs ih => simp [stripLit, ih]

theorem b64index_b64char : ∀ n < 64, b64index (b64char n) = some n := by decide

theorem base64url_decode_encode (l : List Nat) (h : ∀ b ∈ l, b < 256) :
    base64url_decode (base64url_encode l) = some l := by
  induction l using base64url_encode.induct with
  | case1 b0 b1 b2 rest ih =>
    have h0 : b0 < 256 := h b0 (by simp)
    have h1 : b1 < 256 := h b1 (by simp)
    have h2 : b2 < 256 := h b2 (by simp)
    have ih2 := ih (fun b hb => h b (by simp [hb]))
    rw [base64url_encode, base64url_decode]
    rw [b64index_b64char _ (by omega), b64index_b64char _ (by omega),
      b64index_b64char _ (by omega), b64index_b64char _ (by omega)]
    simp only [Bind.bind, Option.bind, Pure.pure, ih2]
    simp only [Option.some.injEq, List.cons.injEq, and_true]
    refine ⟨by omega, by omega, by omega⟩
  | case2 b0 b1 =>
    have h0 : b0 < 256 := h b0 (by simp)
    have h1 : b1 < 256 := h b1 (by simp)
    rw [base64url_encode, base64url_decode]
    rw [b64index_b64char _ (by omega), b64index_b64char _ (by omega),
      b64index_b64char _ (by omega)]
    have e3 : (b1 % 16) * 4 % 4 = 0 := by omega
    simp only [Bind.bind, Option.bind, Pure.pure, e3, ite_true]
    simp only [Option.some.injEq, List.cons.injEq, and_true]
    refine ⟨by omega, by omega⟩
  | case3 b0 =>
    have h0 : b0 < 256 := h b0 (by simp)
    rw [base64url_encode, base64url_decode]
    rw [b64index_b64char _ (by omega), b64index_b64char _ (by omega)]
    have e3 : (b0 % 4) * 16 % 16 = 0 := by omega
    simp only [Bind.bind, Option.bind, Pure.pure, e3, ite_true]
    simp only [Option.some.injEq, List.cons.injEq, and_true]
    omega
  | case4 => rfl

theorem hexVal_hexDigit : ∀ n < 16, hexVal (hexDigit n) = some n := by decide

theorem hex_decode_encode (l : List Nat) (h : ∀ b ∈ l, b < 256) :
    hex_decode (hex_encode l) = some l := by
  induction l with
  | nil => rfl
  | cons b rest ih =>
    have hb : b < 256 := h b (by simp)
    have ih2 := ih (fun x hx => h x (by simp [hx]))
    rw [hex_encode, hex_decode]
    rw [hexVal_hexDigit _ (by omega), hexVal_hexDigit _ (by omega)]
    simp only [Bind.bind, Option.bind, Pure.pure, ih2]
    simp only [Option.some.injEq, List.cons.injEq, and_true]
    omega

theorem natToDecAux_digits (fuel n : Nat) :
    ∀ d ∈ natToDecAux fuel n, 48 ≤ d ∧ d ≤ 57 := by
  induction fuel generalizing n with
  | zero => simp [natToDecAux]
  | succ fuel ih =>
    intro d hd
    rw [natToDecAux] at hd
    by_cases h : n < 10
    · rw [if_pos h] at hd
      simp at hd
      omega
    · rw [if_neg h] at hd
      rcases List.mem_append.mp hd with h1 | h2
      · exact ih _ d h1
      · simp at h2
        omega

theorem parseNatAux_app (ds : List Nat) (rest : List Nat) (acc : Nat)
    (hds : ∀ d ∈ ds, 48 ≤ d ∧ d ≤ 57)
    (hrest : ∀ c, rest.head? = some c → ¬(48 ≤ c ∧ c ≤ 57)) :
    parseNatAux (ds ++ rest) acc = (ds.foldl (fun a d => a * 10 + (d - 48)) acc, rest) := by
  induction ds generalizing acc with
  | nil =>
    cases rest with
    | nil => rfl
    | cons c cs =>
      rw [List.nil_append, parseNatAux, if_neg (hrest c rfl)]
      simp
  | cons d ds ih =>
    have hd := hds d (by simp)
    rw [List.cons_append, parseNatAux, if_pos hd]
    rw [ih _ (fun x hx => hds x (by simp [hx]))]
    simp

theorem natToDecAux_foldl (fuel : Nat) :
    ∀ n acc, n < 10 ^ fuel →
      (natToDecAux fuel n).foldl (fun a d => a * 10 + (d - 48)) acc =
        acc * 10 ^ (natToDecAux fuel n).length + n := by
  induction fuel with
  | zero =>
    intro n acc hn
    interval_cases n
    simp [natToDecAux]
  | succ fuel ih =>
    intro n acc hn
    rw [natToDecAux]
    by_cases h : n < 10
    · rw [if_pos h]
      simp only [List.foldl_cons, List.foldl_nil, List.length_singleton, pow_one]
      omega
    · rw [if_neg h]
      rw [List.foldl_append, List.length_append]
      have hdiv : n / 10 < 10 ^ fuel := by
        have : n < 10 ^ fuel * 10 := by
          calc n < 10 ^ (fuel + 1) := hn
          _ = 10 ^ fuel * 10 := by ring
        omega
      rw [ih (n / 10) acc hdiv]
      simp only [List.foldl_cons, List.foldl_nil, List.length_singleton]
      have h48 : acc * 10 ^ List.length (natToDecAux fuel (n / 10)) * 10 + n / 10 * 10 +
          (48 + n % 10 - 48) = acc * 10 ^ List.length (natToDecAux fuel (n / 10)) * 10 +
          (n / 10 * 10 + n % 10) := by omega
      set L := List.length (natToDecAux fuel (n / 10)) with hL
      have hmod : n / 10 * 10 + n % 10 = n := by omega
      calc (acc * 10 ^ L + n / 10) * 10 + (48 + n % 10 - 48)
          = acc * 10 ^ L * 10 + n / 10 * 10 + (48 + n % 10 - 48) := by ring
      _ = acc * 10 ^ L * 10 + (n / 10 * 10 + n % 10) := h48
      _ = acc * 10 ^ L * 10 + n := by rw [hmod]
      _ = acc * 10 ^ (L + 1) + n := by ring

theorem natToDecAux_head (fuel : Nat) :
    ∀ n, 1 ≤ n → n < 10 ^ fuel →
      ∃ c ds, natToDecAux fuel n = c :: ds ∧ 49 ≤ c ∧ c ≤ 57 ∧
        ∀ d ∈ ds, 48 ≤ d ∧ d ≤ 57 := by
  induction fuel with
  | zero =>
    intro n h1 h2
    omega
  | succ fuel ih =>
    intro n h1 h2
    rw [natToDecAux]
    by_cases h : n < 10
    · rw [if_pos h]
      exact ⟨48 + n, [], rfl, by omega, by omega, by simp⟩
    · rw [if_neg h]
      have hdiv : n / 10 < 10 ^ fuel := by
        have : n < 10 ^ fuel * 10 := by
          calc n < 10 ^ (fuel + 1) := h2
          _ = 10 ^ fuel * 10 := by ring
        omega
      obtain ⟨c, ds, heq, hc1, hc2, hds⟩ := ih (n / 10) (by omega) hdiv
      refine ⟨c, ds ++ [48 + n % 10], by rw [heq]; rfl, hc1, hc2, ?_⟩
      intro d hd
      rcases List.mem_append.mp hd with h1 | h2
      · exact hds d h1
      · simp at h2
        omega

theorem parseNat_toDec (n : Nat) (rest : List Nat) (c0 : Nat)
    (hn : n < 10 ^ 30) (hrest : rest.head? = some c0) (hc0 : ¬(48 ≤ c0 ∧ c0 ≤ 57)) :
    parseNat (natToDec n ++ rest) = some (n, rest) := by
  have hrest2 : ∀ c, rest.head? = some c → ¬(48 ≤ c ∧ c ≤ 57) := by
    intro c hc
    rw [hrest] at hc
    cases hc
    exact hc0
  rcases Nat.eq_zero_or_pos n with h0 | h1
  · subst h0
    have h48 : natToDec 0 = [48] := rfl
    rw [h48]
    cases rest with
    | nil => simp at hrest
    | cons c cs =>
      have hcc : c = c0 := by
        simp at hrest
        omega
      subst hcc
      rw [List.cons_append, List.nil_append]
      have hstep : parseNat (48 :: c :: cs) =
          if 48 ≤ c ∧ c ≤ 57 then none else some (0, c :: cs) := rfl
      rw [hstep, if_neg hc0]
  · obtain ⟨c, ds, heq, hc1, hc2, hds⟩ := natToDecAux_head 30 n h1 hn
    rw [natToDec, heq, List.cons_append]
    simp only [parseNat]
    rw [if_neg (by omega : ¬c = 48), if_pos (by omega : 49 ≤ c ∧ c ≤ 57)]
    rw [parseNatAux_app ds rest (c - 48) hds hrest2]
    have hfold := natToDecAux_foldl 30 n 0 hn
    rw [heq] at hfold
    simp only [List.foldl_cons, List.length_cons, Nat.zero_mul, Nat.zero_add] at hfold
    rw [hfold]

theorem parseStringAux_escape (s : List Nat) (rest : List Nat) (h : ∀ b ∈ s, b < 256) :
    parseStringAux (escapeJsonString s ++ 34 :: rest) = some (s, rest) := by
  induction s generalizing rest with
  | nil =>
    rw [show escapeJsonString [] ++ 34 :: rest = 34 :: rest from rfl, parseStringAux.eq_def]
    exact rfl
  | cons b s ih =>
    have hb : b < 256 := h b (by simp)
    have ih2 := ih rest (fun x hx => h x (by simp [hx]))
    have hflat : escapeJsonString (b :: s) = escChar b ++ escapeJsonString s := by
      simp [escapeJsonString]
    rw [hflat, List.append_assoc]
    by_cases h34 : b = 34
    · subst h34
      have hstep : ∀ L, parseStringAux (92 :: 34 :: L) =
          (fun p => ((34 : Nat) :: p.1, p.2)) <$> parseStringAux L := by
        intro L
        rw [parseStringAux.eq_def]
        exact rfl
      rw [show escChar 34 = [92, 34] from rfl, List.cons_append, List.cons_append,
        List.nil_append, hstep, ih2]
      rfl
    · by_cases h92 : b = 92
      · subst h92
        have hstep : ∀ L, parseStringAux (92 :: 92 :: L) =
            (fun p => ((92 : Nat) :: p.1, p.2)) <$> parseStringAux L := by
          intro L
          rw [parseStringAux.eq_def]
          exact rfl
        rw [show escChar 92 = [92, 92] from rfl, List.cons_append, List.cons_append,
          List.nil_append, hstep, ih2]
        rfl
      · by_cases h8 : b = 8
        · subst h8
          have hstep : ∀ L, parseStringAux (92 :: 98 :: L) =
              (fun p => ((8 : Nat) :: p.1, p.2)) <$> parseStringAux L := by
            intro L
            rw [parseStringAux.eq_def]
            exact rfl
          rw [show escChar 8 = [92, 98] from rfl, List.cons_append, List.cons_append,
            List.nil_append, hstep, ih2]
          rfl
        · by_cases h9 : b = 9
          · subst h9
            have hstep : ∀ L, parseStringAux (92 :: 116 :: L) =
                (fun p => ((9 : Nat) :: p.1, p.2)) <$> parseStringAux L := by
              intro L
              rw [parseStringAux.eq_def]
              exact rfl
            rw [show escChar 9 = [92, 116] from rfl, List.cons_append, List.cons_append,
              List.nil_append, hstep, ih2]
            rfl
          · by_cases h10 : b = 10
            · subst h10
              have hstep : ∀ L, parseStringAux (92 :: 110 :: L) =
                  (fun p => ((10 : Nat) :: p.1, p.2)) <$> parseStringAux L := by
                intro L
                rw [parseStringAux.eq_def]
                exact rfl
              rw [show escChar 10 = [92, 110] from rfl, List.cons_append, List.cons_append,
                List.nil_append, hstep, ih2]
              rfl
            · by_cases h12 : b = 12
              · subst h12
                have hstep : ∀ L, parseStringAux (92 :: 102 :: L) =
                    (fun p => ((12 : Nat) :: p.1, p.2)) <$> parseStringAux L := by
                  intro L
                  rw [parseStringAux.eq_def]
                  exact rfl
                rw [show escChar 12 = [92, 102] from rfl, List.cons_append, List.cons_append,
                  List.nil_append, hstep, ih2]
                rfl
              · by_cases h13 : b = 13
                · subst h13
                  have hstep : ∀ L, parseStringAux (92 :: 114 :: L) =
                      (fun p => ((13 : Nat) :: p.1, p.2)) <$> parseStringAux L := by
                    intro L
                    rw [parseStringAux.eq_def]
                    exact rfl
                  rw [show escChar 13 = [92, 114] from rfl, List.cons_append, List.cons_append,
                    List.nil_append, hstep, ih2]
                  rfl
                · by_cases hctl : b < 32
                  · rw [escChar, if_neg h34, if_neg h92, if_neg h8, if_neg h9, if_neg h10,
                      if_neg h12, if_neg h13, if_pos hctl]
                    have hstep : ∀ h3 h4 L,
                        parseStringAux (92 :: 117 :: 48 :: 48 :: h3 :: h4 :: L) =
                        (match hexVal 48, hexVal 48, hexVal h3, hexVal h4 with
                         | some v1, some v2, some v3, some v4 =>
                           (fun p =>
                             (utf8enc (v1 * 4096 + v2 * 256 + v3 * 16 + v4) ++ p.1, p.2)) <$>
                             parseStringAux L
                         | _, _, _, _ => none) := by
                      intro h3 h4 L
                      rw [parseStringAux.eq_def]
                      exact rfl
                    rw [List.cons_append, List.cons_append, List.cons_append,
                      List.cons_append, List.cons_append, List.cons_append, List.nil_append, hstep]
                    rw [hexVal_hexDigit _ (by omega), hexVal_hexDigit _ (by omega)]
                    rw [show hexVal 48 = some 0 from rfl]
                    simp only [ih2, Option.map_some]
                    have hb2 : 0 * 4096 + 0 * 256 + b / 16 * 16 + b % 16 = b := by omega
                    rw [hb2, utf8enc, if_pos (by omega : b < 128)]
                    simp
                  · rw [escChar, if_neg h34, if_neg h92, if_neg h8, if_neg h9, if_neg h10,
                      if_neg h12, if_neg h13, if_neg hctl]
                    rw [List.cons_append, List.nil_append]
                    rw [parseStringAux.eq_def]
                    simp only []
                    rw [if_neg h34, if_neg h92, if_neg (by omega : ¬b < 32)]
                    simp [ih2]

theorem escape_plain (s : List Nat) (h : ∀ b ∈ s, 32 ≤ b ∧ b ≠ 34 ∧ b ≠ 92) :
    escapeJsonString s = s := by
  induction s with
  | nil => rfl
  | cons b rest ih =>
    obtain ⟨hb1, hb2, hb3⟩ := h b (by simp)
    have hflat : escapeJsonString (b :: rest) = escChar b ++ escapeJsonString rest := by
      simp [escapeJsonString]
    rw [hflat, escChar, if_neg hb2, if_neg hb3, if_neg (by omega), if_neg (by omega),
      if_neg (by omega), if_neg (by omega), if_neg (by omega), if_neg (by omega)]
    rw [ih (fun x hx => h x (by simp [hx]))]
    rfl

theorem toHexFixed_front (w : Nat) :
    ∀ n, n < 16 ^ (w + 1) →
      toHexFixed (w + 1) n = hexDigit (n / 16 ^ w) :: toHexFixed w (n % 16 ^ w) := by
  induction w with
  | zero =>
    intro n hn
    have hn16 : n < 16 := by simpa using hn
    simp only [toHexFixed, pow_zero, Nat.div_one]
    rw [List.nil_append, Nat.mod_eq_of_lt hn16]
  | succ w ih =>
    intro n hn
    have hdiv : n / 16 < 16 ^ (w + 1) := by
      have h1 : n < 16 ^ (w + 1) * 16 := by
        calc n < 16 ^ (w + 1 + 1) := hn
        _ = 16 ^ (w + 1) * 16 := by ring
      omega
    have hpow1 : (16 : Nat) ^ (w + 1) = 16 * 16 ^ w := by ring
    have ea : n / 16 / 16 ^ w = n / 16 ^ (w + 1) := by
      rw [Nat.div_div_eq_div_mul, hpow1, Nat.mul_comm]
    have eb : n / 16 % 16 ^ w = n % 16 ^ (w + 1) / 16 := by
      rw [hpow1, Nat.mod_mul_right_div_self]
    have ec : n % 16 ^ (w + 1) % 16 = n % 16 := by
      exact Nat.mod_mod_of_dvd n (dvd_pow_self 16 (Nat.succ_ne_zero w))
    calc toHexFixed (w + 1 + 1) n
        = toHexFixed (w + 1) (n / 16) ++ [hexDigit (n % 16)] := by rw [toHexFixed]
      _ = (hexDigit (n / 16 / 16 ^ w) :: toHexFixed w (n / 16 % 16 ^ w)) ++
          [hexDigit (n % 16)] := by rw [ih (n / 16) hdiv]
      _ = hexDigit (n / 16 ^ (w + 1)) ::
          (toHexFixed w (n % 16 ^ (w + 1) / 16) ++ [hexDigit (n % 16 ^ (w + 1) % 16)]) := by
          rw [ea, eb, ec]
          rfl
      _ = hexDigit (n / 16 ^ (w + 1)) :: toHexFixed (w + 1) (n % 16 ^ (w + 1)) := by
          rw [show toHexFixed (w + 1) (n % 16 ^ (w + 1)) =
            toHexFixed w (n % 16 ^ (w + 1) / 16) ++ [hexDigit (n % 16 ^ (w + 1) % 16)] from rfl]

theorem parseHexFixed_toHex (w : Nat) :
    ∀ n acc rest, n < 16 ^ w →
      parseHexFixed w (toHexFixed w n ++ rest) acc = some (acc * 16 ^ w + n, rest) := by
  induction w with
  | zero =>
    intro n acc rest hn
    interval_cases n
    simp [toHexFixed, parseHexFixed]
  | succ w ih =>
    intro n acc rest hn
    rw [toHexFixed_front w n hn, List.cons_append, parseHexFixed]
    rw [hexVal_hexDigit _ (Nat.div_lt_of_lt_mul (by rw [← pow_succ] at *; omega))]
    simp only [Bind.bind, Option.bind]
    rw [ih (n % 16 ^ w) _ rest (Nat.mod_lt _ (by positivity))]
    have : (acc * 16 + n / 16 ^ w) * 16 ^ w + n % 16 ^ w = acc * 16 ^ (w + 1) + n := by
      have h1 : n / 16 ^ w * 16 ^ w + n % 16 ^ w = n := Nat.div_add_mod' n (16 ^ w)
      calc (acc * 16 + n / 16 ^ w) * 16 ^ w + n % 16 ^ w
          = acc * (16 ^ w * 16) + (n / 16 ^ w * 16 ^ w + n % 16 ^ w) := by ring
      _ = acc * (16 ^ w * 16) + n := by rw [h1]
      _ = acc * 16 ^ (w + 1) + n := by ring
    rw [this]

theorem uuidGroup_step (w m acc : Nat) (rest : List Nat) (hm : m < 16 ^ w) :
    uuidGroup w (some (acc, 45 :: (toHexFixed w m ++ rest))) = some (acc * 16 ^ w + m, rest) := by
  rw [uuidGroup]
  rw [show (45 : Nat) :: (toHexFixed w m ++ rest) = [45] ++ (toHexFixed w m ++ rest) from rfl]
  rw [stripLit_pre]
  exact parseHexFixed_toHex w m acc rest hm

theorem uuidFromBytes_hyphenated (u : Nat) (hu : u < 2 ^ 128) :
    uuidFromBytes (uuidHyphenated u) = some u := by
  have hu16 : u < 16 ^ 24 * 16 ^ 8 := by
    have : (16 : Nat) ^ 24 * 16 ^ 8 = 2 ^ 128 := by norm_num
    omega
  have h8 : u / 16 ^ 24 < 16 ^ 8 := Nat.div_lt_of_lt_mul hu16
  have hb : u / 16 ^ 20 % 16 ^ 4 < 16 ^ 4 := Nat.mod_lt _ (by positivity)
  have hc : u / 16 ^ 16 % 16 ^ 4 < 16 ^ 4 := Nat.mod_lt _ (by positivity)
  have hd : u / 16 ^ 12 % 16 ^ 4 < 16 ^ 4 := Nat.mod_lt _ (by positivity)
  have he : u % 16 ^ 12 < 16 ^ 12 := Nat.mod_lt _ (by positivity)
  rw [uuidFromBytes, uuidHyphenated]
  simp only [List.append_assoc, List.cons_append]
  rw [show toHexFixed 12 (u % 16 ^ 12) = toHexFixed 12 (u % 16 ^ 12) ++ [] from
    (List.append_nil _).symm]
  rw [parseHexFixed_toHex 8 (u / 16 ^ 24) 0 _ h8]
  rw [uuidGroup_step 4 _ _ _ hb, uuidGroup_step 4 _ _ _ hc, uuidGroup_step 4 _ _ _ hd,
    uuidGroup_step 12 _ _ _ he]
  have s0 : 0 * 16 ^ 8 + u / 16 ^ 24 = u / 16 ^ 24 := by ring
  have s1 : u / 16 ^ 24 * 16 ^ 4 + u / 16 ^ 20 % 16 ^ 4 = u / 16 ^ 20 := by
    have hdd : u / 16 ^ 20 / 16 ^ 4 = u / 16 ^ 24 := by
      rw [Nat.div_div_eq_div_mul]
      norm_num
    rw [← hdd]
    exact Nat.div_add_mod' _ _
  have s2 : u / 16 ^ 20 * 16 ^ 4 + u / 16 ^ 16 % 16 ^ 4 = u / 16 ^ 16 := by
    have hdd : u / 16 ^ 16 / 16 ^ 4 = u / 16 ^ 20 := by
      rw [Nat.div_div_eq_div_mul]
      norm_num
    rw [← hdd]
    exact Nat.div_add_mod' _ _
  have s3 : u / 16 ^ 16 * 16 ^ 4 + u / 16 ^ 12 % 16 ^ 4 = u / 16 ^ 12 := by
    have hdd : u / 16 ^ 12 / 16 ^ 4 = u / 16 ^ 16 := by
      rw [Nat.div_div_eq_div_mul]
      norm_num
    rw [← hdd]
    exact Nat.div_add_mod' _ _
  have s4 : u / 16 ^ 12 * 16 ^ 12 + u % 16 ^ 12 = u := Nat.div_add_mod' _ _
  rw [s0, s1, s2, s3, s4]

/-! ### The delimiter split -/

theorem splitOnBar_ne_nil (l : List Nat) : splitOnBar l ≠ [] := by
  cases l with
  | nil => simp [splitOnBar]
  | cons c rest =>
    rw [splitOnBar]
    by_cases h : c = 124
    · simp [h]
    · rw [if_neg h]
      cases hs : splitOnBar rest <;> simp

theorem splitOnBar_no_bar (l : List Nat) (h : (124 : Nat) ∉ l) : splitOnBar l = [l] := by
  induction l with
  | nil => rfl
  | cons c rest ih =>
    have hc : c ≠ 124 := fun hc => h (by simp [hc])
    rw [splitOnBar, if_neg hc, ih (fun hm => h (by simp [hm]))]

theorem splitOnBar_two (l : List Nat) (h : (124 : Nat) ∈ l) :
    ∃ p q S, splitOnBar l = p :: q :: S := by
  induction l with
  | nil => simp at h
  | cons c rest ih =>
    by_cases hc : c = 124
    · subst hc
      rw [splitOnBar, if_pos rfl]
      obtain ⟨p, hp⟩ := List.exists_cons_of_ne_nil (splitOnBar_ne_nil rest)
      obtain ⟨S, hS⟩ := hp
      exact ⟨[], p, S, by rw [hS]⟩
    · have hmem : (124 : Nat) ∈ rest := by
        rcases List.mem_cons.mp h with h1 | h2
        · omega
        · exact h2
      obtain ⟨p, q, S, hpq⟩ := ih hmem
      rw [splitOnBar, if_neg hc, hpq]
      exact ⟨c :: p, q, S, rfl⟩

theorem split_decomp (before after : List Nat) (hafter : (124 : Nat) ∉ after) :
    token_claims_segment (before ++ 124 :: after) = before.filter (fun c => c != 124) ∧
      token_hash_segment (before ++ 124 :: after) = after := by
  induction before with
  | nil =>
    rw [List.nil_append, token_claims_segment, token_hash_segment, splitOnBar, if_pos rfl,
      splitOnBar_no_bar after hafter]
    exact ⟨rfl, rfl⟩
  | cons c before ih =>
    rw [List.cons_append, token_claims_segment, token_hash_segment, splitOnBar]
    have hmem : (124 : Nat) ∈ before ++ 124 :: after := by simp
    obtain ⟨p, q, S, hpq⟩ := splitOnBar_two _ hmem
    rw [token_claims_segment, token_hash_segment, hpq] at ih
    by_cases hc : c = 124
    · subst hc
      rw [if_pos rfl, hpq]
      refine ⟨?_, ?_⟩
      · rw [show joinInit ([] :: p :: q :: S) = [] ++ joinInit (p :: q :: S) from rfl]
        rw [List.nil_append]
        rw [ih.1]
        simp
      · rw [show lastPart ([] :: p :: q :: S) = lastPart (p :: q :: S) from rfl]
        exact ih.2
    · rw [if_neg hc, hpq]
      refine ⟨?_, ?_⟩
      · rw [show joinInit ((c :: p) :: q :: S) = (c :: p) ++ joinInit (q :: S) from rfl]
        rw [show joinInit (p :: q :: S) = p ++ joinInit (q :: S) from rfl] at ih
        have hfc : List.filter (fun c => c != 124) (c :: before) =
            c :: List.filter (fun c => c != 124) before := by
          simp [List.filter_cons, hc]
        rw [hfc, ← ih.1]
        rfl
      · rw [show lastPart ((c :: p) :: q :: S) = lastPart (q :: S) from rfl]
        rw [show lastPart (p :: q :: S) = lastPart (q :: S) from rfl] at ih
        exact ih.2

theorem filter_no_bar (l : List Nat) (h : (124 : Nat) ∉ l) :
    l.filter (fun c => c != 124) = l := by
  induction l with
  | nil => rfl
  | cons c rest ih =>
    have hc : c ≠ 124 := fun hc => h (by simp [hc])
    rw [List.filter_cons, if_pos (by simp [hc]), ih (fun hm => h (by simp [hm]))]

/-! ### Byte classification of the serialized claims -/

theorem natToDec_digits (n : Nat) : ∀ d ∈ natToDec n, 48 ≤ d ∧ d ≤ 57 :=
  natToDecAux_digits 30 n

theorem hexDigit_mem (m : Nat) (hm : m < 16) :
    (48 ≤ hexDigit m ∧ hexDigit m ≤ 57) ∨ (97 ≤ hexDigit m ∧ hexDigit m ≤ 102) := by
  rw [hexDigit]
  by_cases h : m < 10
  · rw [if_pos h]
    omega
  · rw [if_neg h]
    omega

theorem toHexFixed_mem (w : Nat) :
    ∀ n, ∀ x ∈ toHexFixed w n, (48 ≤ x ∧ x ≤ 57) ∨ (97 ≤ x ∧ x ≤ 102) := by
  induction w with
  | zero => simp [toHexFixed]
  | succ w ih =>
    intro n x hx
    rw [toHexFixed] at hx
    rcases List.mem_append.mp hx with h1 | h2
    · exact ih (n / 16) x h1
    · have : x = hexDigit (n % 16) := by simpa using h2
      subst this
      exact hexDigit_mem _ (Nat.mod_lt _ (by omega))

theorem uuidHyphenated_mem (u : Nat) :
    ∀ x ∈ uuidHyphenated u, x = 45 ∨ (48 ≤ x ∧ x ≤ 57) ∨ (97 ≤ x ∧ x ≤ 102) := by
  intro x hx
  rw [uuidHyphenated] at hx
  simp only [List.append_assoc, List.cons_append, List.mem_append, List.mem_cons] at hx
  rcases hx with h | h | h | h | h | h | h | h | h
  · exact Or.inr (toHexFixed_mem 8 _ x h)
  · exact Or.inl h
  · exact Or.inr (toHexFixed_mem 4 _ x h)
  · exact Or.inl h
  · exact Or.inr (toHexFixed_mem 4 _ x h)
  · exact Or.inl h
  · exact Or.inr (toHexFixed_mem 4 _ x h)
  · exact Or.inl h
  · exact Or.inr (toHexFixed_mem 12 _ x h)

theorem escChar_mem (b : Nat) : ∀ x ∈ escChar b, x = b ∨ (34 ≤ x ∧ x ≤ 117) := by
  intro x hx
  rw [escChar] at hx
  split_ifs at hx with h34 h92 h8 h9 h10 h12 h13 hctl
  · fin_cases hx <;> omega
  · fin_cases hx <;> omega
  · fin_cases hx <;> omega
  · fin_cases hx <;> omega
  · fin_cases hx <;> omega
  · fin_cases hx <;> omega
  · fin_cases hx <;> omega
  · have h16a := hexDigit_mem (b / 16) (by omega)
    have h16b := hexDigit_mem (b % 16) (by omega)
    fin_cases hx <;> omega
  · fin_cases hx
    exact Or.inl rfl

theorem escapeJsonString_mem (s : List Nat) :
    ∀ x ∈ escapeJsonString s, (∃ b ∈ s, x = b) ∨ (34 ≤ x ∧ x ≤ 117) := by
  intro x hx
  rw [escapeJsonString] at hx
  obtain ⟨b, hb, hxb⟩ := List.mem_flatMap.mp hx
  rcases escChar_mem b x hxb with h | h
  · exact Or.inl ⟨b, hb, h⟩
  · exact Or.inr h

theorem hex_encode_mem (l : List Nat) (hl : ∀ b ∈ l, b < 256) :
    ∀ x ∈ hex_encode l, (48 ≤ x ∧ x ≤ 57) ∨ (97 ≤ x ∧ x ≤ 102) := by
  induction l with
  | nil => simp [hex_encode]
  | cons b rest ih =>
    intro x hx
    have hb : b < 256 := hl b (by simp)
    rw [hex_encode] at hx
    rcases List.mem_cons.mp hx with h | hx2
    · subst h
      exact hexDigit_mem _ (by omega)
    · rcases List.mem_cons.mp hx2 with h | h3
      · subst h
        exact hexDigit_mem _ (Nat.mod_lt _ (by omega))
      · exact ih (fun y hy => hl y (by simp [hy])) x h3

theorem to_json_mem (c : TokenClaims) :
    ∀ x ∈ c.to_json,
      (∃ b ∈ c.eml, x = b) ∨ (∃ b ∈ c.cur, x = b) ∨ (32 ≤ x ∧ x ≤ 123) ∨ x = 125 := by
  intro x hx
  rw [TokenClaims.to_json] at hx
  simp only [List.append_assoc, List.cons_append, List.mem_append, List.mem_cons,
    List.not_mem_nil, or_false] at hx
  have hlit : ∀ lit : String, x ∈ asciiBytes lit →
      (∀ ch ∈ lit.toList, 32 ≤ ch.toNat ∧ ch.toNat ≤ 123) → 32 ≤ x ∧ x ≤ 123 := by
    intro lit hmem hch
    rw [asciiBytes] at hmem
    obtain ⟨ch, hc1, hc2⟩ := List.mem_map.mp hmem
    subst hc2
    exact hch ch hc1
  rcases hx with h | h | h | h | h | h | h | h | h | h | h | h | h | h | h | h | h
  · exact Or.inr (Or.inr (Or.inl (by omega)))
  · exact Or.inr (Or.inr (Or.inl (hlit _ h (by decide))))
  · have := natToDec_digits c.exp x h
    exact Or.inr (Or.inr (Or.inl (by omega)))
  · exact Or.inr (Or.inr (Or.inl (hlit _ h (by decide))))
  · rcases uuidHyphenated_mem c.uid x h with h1 | h1 | h1 <;>
      exact Or.inr (Or.inr (Or.inl (by omega)))
  · exact Or.inr (Or.inr (Or.inl (by omega)))
  · exact Or.inr (Or.inr (Or.inl (hlit _ h (by decide))))
  · rcases escapeJsonString_mem c.eml x h with h1 | h1
    · exact Or.inl h1
    · exact Or.inr (Or.inr (Or.inl (by omega)))
  · exact Or.inr (Or.inr (Or.inl (by omega)))
  · exact Or.inr (Or.inr (Or.inl (hlit _ h (by decide))))
  · rcases escapeJsonString_mem c.cur x h with h1 | h1
    · exact Or.inr (Or.inl h1)
    · exact Or.inr (Or.inr (Or.inl (by omega)))
  · exact Or.inr (Or.inr (Or.inl (by omega)))
  · exact Or.inr (Or.inr (Or.inl (hlit _ h (by decide))))
  · have := natToDec_digits c.typ x h
    exact Or.inr (Or.inr (Or.inl (by omega)))
  · exact Or.inr (Or.inr (Or.inl (hlit _ h (by decide))))
  · have := natToDec_digits c.slt x h
    exact Or.inr (Or.inr (Or.inl (by omega)))
  · exact Or.inr (Or.inr (Or.inr h))

/-- Every byte of the canonical claims serialization is a byte (below 256). -/
theorem to_json_lt256 (c : TokenClaims) (hwf : c.WF) : ∀ x ∈ c.to_json, x < 256 := by
  intro x hx
  obtain ⟨-, -, -, -, heml, hcur⟩ := hwf
  rcases to_json_mem c x hx with ⟨b, hb, hxb⟩ | ⟨b, hb, hxb⟩ | h | h
  · have := heml b hb
    omega
  · have := hcur b hb
    omega
  · omega
  · omega

/-- The canonical claims serialization contains no `|` byte when neither
string field does. -/
theorem to_json_no_bar (c : TokenClaims) (heml : (124 : Nat) ∉ c.eml)
    (hcur : (124 : Nat) ∉ c.cur) : (124 : Nat) ∉ c.to_json := by
  intro hx
  rcases to_json_mem c 124 hx with ⟨b, hb, hxb⟩ | ⟨b, hb, hxb⟩ | h | h
  · exact heml (hxb ▸ hb)
  · exact hcur (hxb ▸ hb)
  · omega
  · omega

theorem be32_lt256 (n : Nat) : ∀ x ∈ be32 n, x < 256 := by
  intro x hx
  rw [be32] at hx
  fin_cases hx <;> omega

theorem sha256_lt256 (m : List Nat) : ∀ x ∈ sha256 m, x < 256 := by
  intro x hx
  rw [sha256] at hx
  obtain ⟨w, -, hw⟩ := List.mem_flatMap.mp hx
  exact be32_lt256 w x hw

theorem hmac_lt256 (key m : List Nat) : ∀ x ∈ hmac_sha256 key m, x < 256 := by
  intro x hx
  rw [hmac_sha256] at hx
  exact sha256_lt256 _ x hx

theorem hex_encode_lt256 (l : List Nat) (hl : ∀ b ∈ l, b < 256) :
    ∀ x ∈ hex_encode l, x < 256 := by
  intro x hx
  rcases hex_encode_mem l hl x hx with h | h <;> omega

theorem hex_encode_no_bar (l : List Nat) (hl : ∀ b ∈ l, b < 256) :
    (124 : Nat) ∉ hex_encode l := by
  intro hx
  rcases hex_encode_mem l hl 124 hx with h | h <;> omega

/-! ### Round trip of the claims serialization through the claims parser -/

theorem stripLit_cons (a : Nat) (p s : List Nat) : stripLit (a :: p) (a :: s) = stripLit p s := by
  rw [stripLit]
  simp

theorem parseBoundedNat_run (bound n : Nat) (key s rest : List Nat) (c0 : Nat)
    (hstrip : stripLit key s = some (natToDec n ++ rest))
    (hn30 : n < 10 ^ 30) (hb : n < bound)
    (hrest : rest.head? = some c0) (hc0 : ¬(48 ≤ c0 ∧ c0 ≤ 57)) :
    parseBoundedNat bound key s = some (n, rest) := by
  rw [parseBoundedNat, hstrip, Option.some_bind, parseNat_toDec n rest c0 hn30 hrest hc0,
    Option.some_bind]
  simp [hb]

theorem parseStringField_run (key s rest str : List Nat)
    (hstrip : stripLit key s = some (escapeJsonString str ++ 34 :: rest))
    (hstr : ∀ b ∈ str, b < 256) :
    parseStringField key s = some (str, rest) := by
  rw [parseStringField, hstrip, Option.some_bind]
  exact parseStringAux_escape str rest hstr

theorem uuidHyphenated_plain (u : Nat) :
    ∀ b ∈ uuidHyphenated u, 32 ≤ b ∧ b ≠ 34 ∧ b ≠ 92 := by
  intro b hb
  rcases uuidHyphenated_mem u b hb with h | h | h <;> omega

theorem uuidHyphenated_lt256 (u : Nat) : ∀ b ∈ uuidHyphenated u, b < 256 := by
  intro b hb
  rcases uuidHyphenated_mem u b hb with h | h | h <;> omega

theorem parseClaims_to_json (c : TokenClaims) (hwf : c.WF) :
    parseClaims c.to_json = some c := by
  obtain ⟨hexp, huid, htyp, hslt, heml, hcur⟩ := hwf
  have hjson : c.to_json = (123 :: asciiBytes "\"exp\":") ++ (natToDec c.exp ++ (asciiBytes ",\"uid\":\"" ++ (uuidHyphenated c.uid ++ (34 :: (asciiBytes ",\"eml\":\"" ++ (escapeJsonString c.eml ++ (34 :: (asciiBytes ",\"cur\":\"" ++ (escapeJsonString c.cur ++ (34 :: (asciiBytes ",\"typ\":" ++ (natToDec c.typ ++ (asciiBytes ",\"slt\":" ++ (natToDec c.slt ++ ([125]))))))))))))))) := by
    rw [TokenClaims.to_json]
    simp [List.append_assoc, List.cons_append]
  have h1 : parseBoundedNat (2 ^ 64) (123 :: asciiBytes "\"exp\":") c.to_json =
      some (c.exp, asciiBytes ",\"uid\":\"" ++ (uuidHyphenated c.uid ++ (34 :: (asciiBytes ",\"eml\":\"" ++ (escapeJsonString c.eml ++ (34 :: (asciiBytes ",\"cur\":\"" ++ (escapeJsonString c.cur ++ (34 :: (asciiBytes ",\"typ\":" ++ (natToDec c.typ ++ (asciiBytes ",\"slt\":" ++ (natToDec c.slt ++ ([125])))))))))))))) := by
    apply parseBoundedNat_run _ _ _ _ _ 44
    · rw [hjson, stripLit_pre]
    · calc c.exp < 2 ^ 64 := hexp
        _ < 10 ^ 30 := by norm_num
    · exact hexp
    · rfl
    · omega
  have h2 : parseStringField (asciiBytes ",\"uid\":\"") (asciiBytes ",\"uid\":\"" ++ (uuidHyphenated c.uid ++ (34 :: (asciiBytes ",\"eml\":\"" ++ (escapeJsonString c.eml ++ (34 :: (asciiBytes ",\"cur\":\"" ++ (escapeJsonString c.cur ++ (34 :: (asciiBytes ",\"typ\":" ++ (natToDec c.typ ++ (asciiBytes ",\"slt\":" ++ (natToDec c.slt ++ ([125])))))))))))))) =
      some (uuidHyphenated c.uid, asciiBytes ",\"eml\":\"" ++ (escapeJsonString c.eml ++ (34 :: (asciiBytes ",\"cur\":\"" ++ (escapeJsonString c.cur ++ (34 :: (asciiBytes ",\"typ\":" ++ (natToDec c.typ ++ (asciiBytes ",\"slt\":" ++ (natToDec c.slt ++ ([125]))))))))))) := by
    apply parseStringField_run
    · rw [stripLit_pre, escape_plain _ (uuidHyphenated_plain c.uid)]
    · exact uuidHyphenated_lt256 c.uid
  have h3 : parseStringField (asciiBytes ",\"eml\":\"") (asciiBytes ",\"eml\":\"" ++ (escapeJsonString c.eml ++ (34 :: (asciiBytes ",\"cur\":\"" ++ (escapeJsonString c.cur ++ (34 :: (asciiBytes ",\"typ\":" ++ (natToDec c.typ ++ (asciiBytes ",\"slt\":" ++ (natToDec c.slt ++ ([125]))))))))))) =
      some (c.eml, asciiBytes ",\"cur\":\"" ++ (escapeJsonString c.cur ++ (34 :: (asciiBytes ",\"typ\":" ++ (natToDec c.typ ++ (asciiBytes ",\"slt\":" ++ (natToDec c.slt ++ ([125])))))))) := by
    apply parseStringField_run
    · rw [stripLit_pre]
    · exact heml
  have h4 : parseStringField (asciiBytes ",\"cur\":\"") (asciiBytes ",\"cur\":\"" ++ (escapeJsonString c.cur ++ (34 :: (asciiBytes ",\"typ\":" ++ (natToDec c.typ ++ (asciiBytes ",\"slt\":" ++ (natToDec c.slt ++ ([125])))))))) =
      some (c.cur, asciiBytes ",\"typ\":" ++ (natToDec c.typ ++ (asciiBytes ",\"slt\":" ++ (natToDec c.slt ++ ([125]))))) := by
    apply parseStringField_run
    · rw [stripLit_pre]
    · exact hcur
  have h5 : parseBoundedNat (2 ^ 8) (asciiBytes ",\"typ\":") (asciiBytes ",\"typ\":" ++ (natToDec c.typ ++ (asciiBytes ",\"slt\":" ++ (natToDec c.slt ++ ([125]))))) =
      some (c.typ, asciiBytes ",\"slt\":" ++ (natToDec c.slt ++ ([125]))) := by
    apply parseBoundedNat_run _ _ _ _ _ 44
    · rw [stripLit_pre]
    · calc c.typ < 2 ^ 8 := htyp
        _ < 10 ^ 30 := by norm_num
    · exact htyp
    · rfl
    · omega
  have h6 : parseBoundedNat (2 ^ 32) (asciiBytes ",\"slt\":") (asciiBytes ",\"slt\":" ++ (natToDec c.slt ++ ([125]))) =
      some (c.slt, [125]) := by
    apply parseBoundedNat_run _ _ _ _ _ 125
    · rw [stripLit_pre]
    · calc c.slt < 2 ^ 32 := hslt
        _ < 10 ^ 30 := by norm_num
    · exact hslt
    · rfl
    · omega
  rw [parseClaims, h1, Option.some_bind]
  dsimp only
  rw [h2, Option.some_bind]
  dsimp only
  rw [uuidFromBytes_hyphenated c.uid huid, Option.some_bind, h3, Option.some_bind]
  dsimp only
  rw [h4, Option.some_bind]
  dsimp only
  rw [h5, Option.some_bind]
  dsimp only
  rw [h6, Option.some_bind]
  dsimp only
  rw [if_pos rfl]

/-! ### Round trip of the full token pipeline -/

theorem create_token_body_lt256 (c : TokenClaims) (key : List Nat) (hwf : c.WF) :
    ∀ b ∈ c.to_json ++ 124 :: hex_encode (hmac_sha256 key c.to_json), b < 256 := by
  intro b hb
  rcases List.mem_append.mp hb with h | h
  · exact to_json_lt256 c hwf b h
  · rcases List.mem_cons.mp h with h1 | h1
    · omega
    · exact hex_encode_lt256 _ (hmac_lt256 key c.to_json) b h1

theorem token_to_claims_and_hash_create (c : TokenClaims) (key : List Nat) (hwf : c.WF)
    (heml : (124 : Nat) ∉ c.eml) (hcur : (124 : Nat) ∉ c.cur) :
    token_to_claims_and_hash (c.create_token key) =
      .ok (c, c.to_json, hmac_sha256 key c.to_json) := by
  have hdecode : base64url_decode (c.create_token key) =
      some (c.to_json ++ 124 :: hex_encode (hmac_sha256 key c.to_json)) := by
    rw [TokenClaims.create_token]
    exact base64url_decode_encode _ (create_token_body_lt256 c key hwf)
  have hsplit := split_decomp c.to_json (hex_encode (hmac_sha256 key c.to_json))
    (hex_encode_no_bar _ (hmac_lt256 key c.to_json))
  rw [token_to_claims_and_hash, hdecode]
  simp only
  rw [hsplit.1, hsplit.2, filter_no_bar _ (to_json_no_bar c heml hcur),
    parseClaims_to_json c hwf,
    hex_decode_encode _ (hmac_lt256 key c.to_json)]

/-- Amended round trip: decoding an issued token with the issuing key at a
time strictly before the expiration returns the original claims, provided the
claims strings are free of the delimiter byte. -/
theorem from_token_round_trip (c : TokenClaims) (key : List Nat) (now : Nat) (hwf : c.WF)
    (heml : (124 : Nat) ∉ c.eml) (hcur : (124 : Nat) ∉ c.cur) (hfut : now < c.exp) :
    from_token_with_validation (c.create_token key) key now = .ok c := by
  rw [from_token_with_validation, token_to_claims_and_hash_create c key hwf heml hcur]
  simp only
  rw [if_neg (by omega : ¬now ≥ c.exp)]
  simp

/-! ### Concrete sample data used by witnesses and counterexamples -/

def sampleKey : List Nat := [1, 2, 3, 4, 5, 6, 7, 8, 9, 10, 11, 12, 13, 14, 15, 16]

def sampleKey2 : List Nat := [1, 2, 3, 4, 5, 6, 7, 8, 9, 10, 11, 12, 13, 14, 15, 17]

def sampleUid : Nat := 0x67e5504410b1426f9247bb680e5fe0c8

/-- Delimiter-free claims with expiration 1000. -/
def sampleClaims : TokenClaims :=
  { exp := 1000, uid := sampleUid, eml := asciiBytes "ab", cur := asciiBytes "USD",
    typ := 0, slt := 1 }

/-- Claims whose email contains the delimiter byte `|`. -/
def barClaims : TokenClaims :=
  { exp := 1000, uid := sampleUid, eml := asciiBytes "a|b", cur := asciiBytes "USD",
    typ := 0, slt := 1 }

/-- Claims with the unknown wire type code 7. -/
def typ7Claims : TokenClaims :=
  { exp := 1000, uid := sampleUid, eml := asciiBytes "ab", cur := asciiBytes "USD",
    typ := 7, slt := 1 }

/-- The transport string issued for `sampleClaims` under `sampleKey`. -/
def sampleTokenLiteral : List Nat :=
  asciiBytes "eyJleHAiOjEwMDAsInVpZCI6IjY3ZTU1MDQ0LTEwYjEtNDI2Zi05MjQ3LWJiNjgwZTVmZTBjOCIsImVtbCI6ImFiIiwiY3VyIjoiVVNEIiwidHlwIjowLCJzbHQiOjF9fDg5ODFlZTNjN2IwNDYwZjViZTIyM2IwMmJkZDA0ZTQzMGJhNjQ2NTVlY2NiZGM0M2YxYWQwMDU3YzU2NTIwNWE"

/-- The transport string issued for `barClaims` under `sampleKey`. -/
def barTokenLiteral : List Nat :=
  asciiBytes "eyJleHAiOjEwMDAsInVpZCI6IjY3ZTU1MDQ0LTEwYjEtNDI2Zi05MjQ3LWJiNjgwZTVmZTBjOCIsImVtbCI6ImF8YiIsImN1ciI6IlVTRCIsInR5cCI6MCwic2x0IjoxfXxmYTJiZDhhNGM4ODg4ZTJkMjM2MDQyYzJlMmNmZDczMDA4OTYwNDQ2NjMwYmJhMGI2ZWM5YjQzMDk5MjAyZGM2"

/-- The transport string issued for `typ7Claims` under `sampleKey`. -/
def typ7TokenLiteral : List Nat :=
  asciiBytes "eyJleHAiOjEwMDAsInVpZCI6IjY3ZTU1MDQ0LTEwYjEtNDI2Zi05MjQ3LWJiNjgwZTVmZTBjOCIsImVtbCI6ImFiIiwiY3VyIjoiVVNEIiwidHlwIjo3LCJzbHQiOjF9fDc3ZDgyNTQ2MmU1YTEzYTI2YWJiZDI4OWE5MDRiNmYzOWNjOGFjMmVlOGFlY2M5YzNjZGNhNzIzOGJiNzBlNWU"

/-! ### C1 — round trip -/

/-- C1 (counterexample): the round trip fails as stated.  For claims whose
email contains the `|` byte, the split-and-concatenate step of the decoder deletes
the delimiter inside the serialized claims, so the recomputed MAC no longer
matches and decoding an issued, unexpired token fails with `TokenInvalid`
instead of returning the claims. -/
theorem c1_round_trip_counterexample :
    0 < barClaims.exp ∧
    from_token_with_validation (barClaims.create_token sampleKey) sampleKey 0 =
      Except.error TokenError.tokenInvalid ∧
    from_token_with_validation (barClaims.create_token sampleKey) sampleKey 0 ≠
      Except.ok barClaims := by
  have htok : barClaims.create_token sampleKey = barTokenLiteral := by decide
  have hdec : from_token_with_validation barTokenLiteral sampleKey 0 =
      Except.error TokenError.tokenInvalid := by decide
  refine ⟨by decide, ?_, ?_⟩
  · rw [htok]
    exact hdec
  · rw [htok, hdec]
    simp

/-- C1 (amended): for every well-formed claims value whose expiration lies
strictly in the future and whose `eml` and `cur` strings are free of the
delimiter byte `|` (0x7C), and every signing key, decoding the token produced
by `create_token` with `from_token_with_validation` under the same key
succeeds and returns claims equal to the original. -/
theorem c1_round_trip_amended (c : TokenClaims) (key : List Nat) (now : Nat)
    (hwf : c.WF) (heml : (124 : Nat) ∉ c.eml) (hcur : (124 : Nat) ∉ c.cur)
    (hfut : now < c.exp) :
    from_token_with_validation (c.create_token key) key now = Except.ok c :=
  from_token_round_trip c key now hwf heml hcur hfut

/-- Witness for C1: the round trip at concrete delimiter-free claims. -/
theorem c1_round_trip_amended_witness :
    sampleClaims.WF ∧ (124 : Nat) ∉ sampleClaims.eml ∧ (124 : Nat) ∉ sampleClaims.cur ∧
    0 < sampleClaims.exp ∧
    from_token_with_validation (sampleClaims.create_token sampleKey) sampleKey 0 =
      Except.ok sampleClaims :=
  ⟨by decide, by decide, by decide, by decide,
    c1_round_trip_amended sampleClaims sampleKey 0 (by decide) (by decide) (by decide)
      (by decide)⟩

/-! ### C2 — wire format and the pinned vector -/

/-- The canonical serialization of the pinned regression claims, as a byte
literal. -/
def c2Claims : TokenClaims :=
  { exp := 123456789, uid := sampleUid,
    eml := asciiBytes "Testing_tokens@example.com", cur := asciiBytes "USD",
    typ := 0, slt := 10000 }

def c2JsonLiteral : List Nat :=
  asciiBytes "\x7b\"exp\":123456789,\"uid\":\"67e55044-10b1-426f-9247-bb680e5fe0c8\",\"eml\":\"Testing_tokens@example.com\",\"cur\":\"USD\",\"typ\":0,\"slt\":10000\x7d"

/-- Modelled from the spec: the fixed test signing key lives in
`conf/budgetapp.toml`, which is not among the sources; the spec pins only the
resulting transport string (section 8, concrete scenario), so the MAC of the
canonical claims bytes under that key is recorded here by its lowercase hex
digits as they appear inside the pinned vector. -/
def pinnedMacHex : List Nat :=
  asciiBytes "649f240d76bc4a98a163379ceae7ad0d7009805c3c5e09f39224c6c94a3dee7d"

/-- The pinned literal transport string of `tests::test_create_token`. -/
def pinnedTokenLiteral : List Nat :=
  asciiBytes "eyJleHAiOjEyMzQ1Njc4OSwidWlkIjoiNjdlNTUwNDQtMTBiMS00MjZmLTkyNDctYmI2ODBlNWZlMGM4IiwiZW1sIjoiVGVzdGluZ190b2tlbnNAZXhhbXBsZS5jb20iLCJjdXIiOiJVU0QiLCJ0eXAiOjAsInNsdCI6MTAwMDB9fDY0OWYyNDBkNzZiYzRhOThhMTYzMzc5Y2VhZTdhZDBkNzAwOTgwNWMzYzVlMDlmMzkyMjRjNmM5NGEzZGVlN2Q"

/-- C2: `create_token` emits exactly
`base64url_no_pad(claims_json ++ 0x7C ++ lowercase_hex(HMAC_SHA256(claims_json, key)))`
— shown for the pinned claims under every key — the pinned claims serialize to
the recorded canonical byte literal, and the pinned transport literal is
exactly the encoding of those claims bytes, the delimiter, and the pinned MAC
hex digits. -/
theorem c2_wire_format :
    c2Claims.to_json = c2JsonLiteral ∧
    (∀ key : List Nat, c2Claims.create_token key =
      base64url_encode (c2JsonLiteral ++ 124 :: hex_encode (hmac_sha256 key c2JsonLiteral))) ∧
    base64url_encode (c2JsonLiteral ++ 124 :: pinnedMacHex) = pinnedTokenLiteral := by
  have hjson : c2Claims.to_json = c2JsonLiteral := by decide
  refine ⟨hjson, ?_, by decide⟩
  intro key
  simp only [TokenClaims.create_token]
  rw [hjson]

/-! ### C3 — the delimiter split -/

/-- C3 (counterexample): for the decoded buffer `"a|b|c"`, the claims segment
handed to the claims decoder is `"ab"`, not `"a|b"`: the delimiter occurrence
inside the part before the last `|` is deleted, not preserved. -/
theorem c3_split_counterexample :
    base64url_decode (base64url_encode [97, 124, 98, 124, 99]) =
      some [97, 124, 98, 124, 99] ∧
    ([97, 124, 98, 124, 99] : List Nat) = [97, 124, 98] ++ 124 :: [99] ∧
    (124 : Nat) ∉ ([99] : List Nat) ∧
    token_claims_segment [97, 124, 98, 124, 99] = [97, 98] ∧
    token_claims_segment [97, 124, 98, 124, 99] ≠ [97, 124, 98] ∧
    token_hash_segment [97, 124, 98, 124, 99] = [99] := by decide

/-- C3 (amended): decomposing the decoded buffer at the last occurrence of
the delimiter byte `|`, the hex-MAC segment is everything after that
occurrence, and the claims segment handed to the claims decoder is everything
before it with the interior delimiter occurrences removed (the split parts are
concatenated without the delimiters). -/
theorem c3_split_amended (buf before after : List Nat)
    (hdec : buf = before ++ 124 :: after) (hafter : (124 : Nat) ∉ after) :
    token_claims_segment buf = before.filter (fun c => c != 124) ∧
      token_hash_segment buf = after := by
  subst hdec
  exact split_decomp before after hafter

/-- Witness for C3: the amended split rule at the concrete buffer
`"a|b|c"`. -/
theorem c3_split_amended_witness :
    ([97, 124, 98, 124, 99] : List Nat) = [97, 124, 98] ++ 124 :: [99] ∧
    (124 : Nat) ∉ ([99] : List Nat) ∧
    (token_claims_segment [97, 124, 98, 124, 99] =
        ([97, 124, 98] : List Nat).filter (fun c => c != 124) ∧
      token_hash_segment [97, 124, 98, 124, 99] = [99]) :=
  ⟨by decide, by decide,
    c3_split_amended [97, 124, 98, 124, 99] [97, 124, 98] [99] (by decide) (by decide)⟩

/-! ### C4 — expiration boundary -/

/-- C4: for every token whose claims decode successfully and whose signature
is valid under the key, `from_token_with_validation` fails with `TokenExpired`
exactly when `now ≥ claims.exp`; a token with `exp = now` is rejected and a
token with `exp = now + 1` succeeds at time `now`. -/
theorem c4_expiration_boundary (token key : List Nat) (now : Nat) (c : TokenClaims)
    (s h : List Nat)
    (hparse : token_to_claims_and_hash token = Except.ok (c, s, h))
    (hsig : hmac_sha256 key s = h) :
    (from_token_with_validation token key now = Except.error TokenError.tokenExpired ↔
      c.exp ≤ now) ∧
    (c.exp = now → from_token_with_validation token key now =
      Except.error TokenError.tokenExpired) ∧
    (c.exp = now + 1 → from_token_with_validation token key now = Except.ok c) := by
  rw [from_token_with_validation, hparse]
  simp only
  by_cases hge : now ≥ c.exp
  · rw [if_pos hge]
    refine ⟨⟨fun _ => by omega, fun _ => rfl⟩, fun _ => rfl, fun hx => ?_⟩
    exfalso
    omega
  · rw [if_neg hge, if_pos hsig]
    refine ⟨⟨fun heq => ?_, fun hle => ?_⟩, fun hx => ?_, fun _ => rfl⟩
    · exact absurd heq (by simp)
    · exfalso
      omega
    · exfalso
      omega

/-- Witness for C4: the boundary at a concrete issued token with expiration
1000, evaluated at clock reading 999. -/
theorem c4_expiration_boundary_witness :
    token_to_claims_and_hash sampleTokenLiteral =
      Except.ok (sampleClaims, sampleClaims.to_json,
        hmac_sha256 sampleKey sampleClaims.to_json) ∧
    hmac_sha256 sampleKey sampleClaims.to_json = hmac_sha256 sampleKey sampleClaims.to_json ∧
    ((from_token_with_validation sampleTokenLiteral sampleKey 999 =
        Except.error TokenError.tokenExpired ↔ sampleClaims.exp ≤ 999) ∧
      (sampleClaims.exp = 999 → from_token_with_validation sampleTokenLiteral sampleKey 999 =
        Except.error TokenError.tokenExpired) ∧
      (sampleClaims.exp = 999 + 1 → from_token_with_validation sampleTokenLiteral sampleKey 999 =
        Except.ok sampleClaims)) :=
  ⟨by decide, rfl,
    c4_expiration_boundary sampleTokenLiteral sampleKey 999 sampleClaims
      sampleClaims.to_json (hmac_sha256 sampleKey sampleClaims.to_json) (by decide) rfl⟩

/-! ### C10 — expiration is checked before the signature -/

/-- C10: in `from_token_with_validation` the expiration check runs before
signature verification: when the segments of the token parse into claims with
`now ≥ claims.exp`, the result is `TokenExpired` even though the MAC does not
verify under the key. -/
theorem c10_expired_before_signature (token key : List Nat) (now : Nat) (c : TokenClaims)
    (s h : List Nat)
    (hparse : token_to_claims_and_hash token = Except.ok (c, s, h))
    (hexp : c.exp ≤ now) (_hsig : hmac_sha256 key s ≠ h) :
    from_token_with_validation token key now = Except.error TokenError.tokenExpired := by
  rw [from_token_with_validation, hparse]
  simp only
  rw [if_pos (by omega : now ≥ c.exp)]

/-- Witness for C10: an expired token checked under a key that does not verify
its MAC is still reported as `TokenExpired`. -/
theorem c10_expired_before_signature_witness :
    token_to_claims_and_hash sampleTokenLiteral =
      Except.ok (sampleClaims, sampleClaims.to_json,
        hmac_sha256 sampleKey sampleClaims.to_json) ∧
    sampleClaims.exp ≤ 1000 ∧
    hmac_sha256 sampleKey2 sampleClaims.to_json ≠ hmac_sha256 sampleKey sampleClaims.to_json ∧
    from_token_with_validation sampleTokenLiteral sampleKey2 1000 =
      Except.error TokenError.tokenExpired :=
  ⟨by decide, by decide, by decide,
    c10_expired_before_signature sampleTokenLiteral sampleKey2 1000 sampleClaims
      sampleClaims.to_json (hmac_sha256 sampleKey sampleClaims.to_json) (by decide) (by decide)
      (by decide)⟩

/-! ### C5 — token type enforcement -/

/-- C5: for every token that passes decode-with-validation, `validate_token`
returns `InvalidTokenType` wrapping the raw `typ` value when `typ` is not one
of 0, 1, 2; when `typ` maps to a known kind (0 = Access, 1 = Refresh,
2 = SignIn) that differs from the expected kind it returns `WrongTokenType`;
a matching known kind returns the claims — an unknown code is never coerced
to a kind. -/
theorem c5_type_enforcement (token key : List Nat) (now : Nat) (expected : TokenType)
    (c : TokenClaims)
    (hok : from_token_with_validation token key now = Except.ok c) :
    (TokenType.try_from 0 = Except.ok TokenType.access ∧
      TokenType.try_from 1 = Except.ok TokenType.refresh ∧
      TokenType.try_from 2 = Except.ok TokenType.signIn) ∧
    (¬(c.typ = 0 ∨ c.typ = 1 ∨ c.typ = 2) →
      validate_token token expected key now =
        Except.error (TokenError.invalidTokenType c.typ)) ∧
    (∀ t, TokenType.try_from c.typ = Except.ok t → t ≠ expected →
      validate_token token expected key now = Except.error TokenError.wrongTokenType) ∧
    (∀ t, TokenType.try_from c.typ = Except.ok t → t = expected →
      validate_token token expected key now = Except.ok c) := by
  refine ⟨⟨rfl, rfl, rfl⟩, ?_, ?_, ?_⟩
  · intro hne
    rw [validate_token, hok]
    simp only
    have htf : TokenType.try_from c.typ = Except.error c.typ := by
      rw [TokenType.try_from, if_neg (fun h => hne (Or.inl h)),
        if_neg (fun h => hne (Or.inr (Or.inl h))), if_neg (fun h => hne (Or.inr (Or.inr h)))]
    rw [htf]
  · intro t ht hne
    rw [validate_token, hok]
    simp only
    rw [ht]
    simp only
    rw [if_pos hne]
  · intro t ht heq
    rw [validate_token, hok]
    simp only
    rw [ht]
    simp only
    rw [if_neg (by simp [heq])]

/-- Witness for C5: a validated token with the unknown wire code 7 is rejected
as `InvalidTokenType 7`, wrapping the raw value. -/
theorem c5_type_enforcement_witness :
    from_token_with_validation typ7TokenLiteral sampleKey 0 = Except.ok typ7Claims ∧
    ¬(typ7Claims.typ = 0 ∨ typ7Claims.typ = 1 ∨ typ7Claims.typ = 2) ∧
    validate_token typ7TokenLiteral TokenType.access sampleKey 0 =
      Except.error (TokenError.invalidTokenType typ7Claims.typ) :=
  ⟨by decide, by decide,
    (c5_type_enforcement typ7TokenLiteral sampleKey 0 TokenType.access typ7Claims
      (by decide)).2.1 (by decide)⟩

/-! ### C6, C7 — the revocation store -/

theorem is_on_blacklist_true_iff (token : List Nat) (db : DbState) :
    is_on_blacklist token db = Except.ok true ↔
      (db.broken = false ∧ ∃ r ∈ db.rows, r.token = token) := by
  rw [is_on_blacklist, dbFindToken]
  by_cases hb : db.broken
  · rw [if_pos hb]
    simp [hb]
  · rw [if_neg hb]
    cases hfind : db.rows.find? (fun r => r.token = token) with
    | none =>
      simp only
      constructor
      · intro heq
        exact absurd heq (by simp)
      · intro ⟨_, r, hr, hrt⟩
        have := List.find?_eq_none.mp hfind r hr
        simp [hrt] at this
    | some r =>
      simp only
      constructor
      · intro _
        refine ⟨by simpa using hb, r, List.mem_of_find?_eq_some hfind, ?_⟩
        have := List.find?_some hfind
        simpa using this
      · intro _
        trivial

theorem is_on_blacklist_not_error (token : List Nat) (db : DbState) (e : TokenError) :
    is_on_blacklist token db ≠ Except.error e := by
  rw [is_on_blacklist]
  cases dbFindToken db token <;> simp

theorem is_on_blacklist_false_iff (token : List Nat) (db : DbState) :
    is_on_blacklist token db = Except.ok false ↔
      ¬(db.broken = false ∧ ∃ r ∈ db.rows, r.token = token) := by
  constructor
  · intro heq hex
    have := (is_on_blacklist_true_iff token db).mpr hex
    rw [heq] at this
    simp at this
  · intro hnex
    cases hres : is_on_blacklist token db with
    | error e => exact absurd hres (is_on_blacklist_not_error token db e)
    | ok b =>
      cases b with
      | false => rfl
      | true => exact absurd ((is_on_blacklist_true_iff token db).mp hres) hnex

/-- C7: `is_on_blacklist` returns `Ok(true)` exactly when the store is
reachable and holds a row whose token column equals the literal token string;
in every other situation — no matching row, or a failing store lookup — it
returns `Ok(false)`, and it never propagates a storage error. -/
theorem c7_closed_world_lookup (token : List Nat) (db : DbState) :
    (is_on_blacklist token db = Except.ok true ↔
      (db.broken = false ∧ ∃ r ∈ db.rows, r.token = token)) ∧
    (is_on_blacklist token db = Except.ok false ↔
      ¬(db.broken = false ∧ ∃ r ∈ db.rows, r.token = token)) ∧
    (∀ e, is_on_blacklist token db ≠ Except.error e) :=
  ⟨is_on_blacklist_true_iff token db, is_on_blacklist_false_iff token db,
    fun e => is_on_blacklist_not_error token db e⟩

/-- C6: with a functioning store, a token present in the revocation store
makes `validate_refresh_token` fail with `TokenBlacklisted` regardless of
signature and expiration; before revocation `is_on_blacklist` reports `false`
for an absent token, and after a successful `blacklist_token` it reports
`true`. -/
theorem c6_blacklist_overrides (db : DbState) (token key : List Nat) (now : Nat)
    (hok : db.broken = false) :
    ((∃ r ∈ db.rows, r.token = token) →
      validate_refresh_token token db key now = Except.error TokenError.tokenBlacklisted) ∧
    ((¬∃ r ∈ db.rows, r.token = token) → is_on_blacklist token db = Except.ok false) ∧
    (∀ row db2, blacklist_token token db = Except.ok (row, db2) →
      is_on_blacklist token db2 = Except.ok true) := by
  refine ⟨?_, ?_, ?_⟩
  · intro hex
    rw [validate_refresh_token, (is_on_blacklist_true_iff token db).mpr ⟨hok, hex⟩]
  · intro hnex
    exact (is_on_blacklist_false_iff token db).mpr (fun ⟨_, hex⟩ => hnex hex)
  · intro row db2 hbl
    rw [blacklist_token] at hbl
    cases hparse : from_token_without_validation token with
    | error e =>
      rw [hparse] at hbl
      exact absurd hbl (by simp)
    | ok decoded =>
      rw [hparse] at hbl
      simp only at hbl
      by_cases hlt : decoded.exp < 2 ^ 63
      · rw [if_pos hlt, dbInsertToken, if_neg (by simp [hok])] at hbl
        simp only [Except.ok.injEq, Prod.mk.injEq] at hbl
        obtain ⟨hrow, hdb2⟩ := hbl
        apply (is_on_blacklist_true_iff token db2).mpr
        constructor
        · rw [← hdb2]
          simpa using hok
        · refine ⟨⟨token, decoded.uid, (decoded.exp : Int)⟩, ?_, rfl⟩
          rw [← hdb2]
          simp
      · rw [if_neg hlt] at hbl
        exact absurd hbl (by simp)

/-- Witness for C6: a concrete store in which `sampleTokenLiteral` is first
absent and then blacklisted. -/
theorem c6_blacklist_overrides_witness :
    (DbState.broken ⟨[⟨sampleTokenLiteral, sampleUid, 1000⟩], false⟩ = false ∧
      (∃ r ∈ (⟨[⟨sampleTokenLiteral, sampleUid, 1000⟩], false⟩ : DbState).rows,
          r.token = sampleTokenLiteral) ∧
      validate_refresh_token sampleTokenLiteral ⟨[⟨sampleTokenLiteral, sampleUid, 1000⟩], false⟩
        sampleKey 0 = Except.error TokenError.tokenBlacklisted) ∧
    (DbState.broken ⟨[], false⟩ = false ∧
      is_on_blacklist sampleTokenLiteral ⟨[], false⟩ = Except.ok false ∧
      (∀ row db2,
        blacklist_token sampleTokenLiteral ⟨[], false⟩ = Except.ok (row, db2) →
          is_on_blacklist sampleTokenLiteral db2 = Except.ok true)) := by
  refine ⟨⟨rfl, ?_, ?_⟩, rfl, ?_, ?_⟩
  · exact ⟨⟨sampleTokenLiteral, sampleUid, 1000⟩, by simp, rfl⟩
  · exact (c6_blacklist_overrides ⟨[⟨sampleTokenLiteral, sampleUid, 1000⟩], false⟩
      sampleTokenLiteral sampleKey 0 rfl).1
      ⟨⟨sampleTokenLiteral, sampleUid, 1000⟩, by simp, rfl⟩
  · exact (c6_blacklist_overrides ⟨[], false⟩ sampleTokenLiteral sampleKey 0 rfl).2.1
      (by simp)
  · exact (c6_blacklist_overrides ⟨[], false⟩ sampleTokenLiteral sampleKey 0 rfl).2.2

/-! ### C8 — issuance lifetime formula -/

/-- C8: the expiration claim of an issued token equals the issuance-time clock
reading plus the per-kind lifetime — minutes times 60 for Access, days times
24 times 60 times 60 for Refresh, and the deliberately doubled
2 times (OTP minutes times 60) for SignIn — and the salt claim is exactly the
freshly drawn random value of this issuance. -/
theorem c8_lifetime_formula (params : TokenParams) (lt : Lifetimes) (now salt : Nat)
    (ha : now + lt.access_token_lifetime_mins * 60 < 2 ^ 64)
    (hr : now + lt.refresh_token_lifetime_days * 24 * 60 * 60 < 2 ^ 64)
    (hs : now + lt.otp_lifetime_mins * 60 * 2 < 2 ^ 64) :
    (generate_token_claims params TokenType.access lt now salt).exp =
      now + lt.access_token_lifetime_mins * 60 ∧
    (generate_token_claims params TokenType.refresh lt now salt).exp =
      now + lt.refresh_token_lifetime_days * 24 * 60 * 60 ∧
    (generate_token_claims params TokenType.signIn lt now salt).exp =
      now + 2 * (lt.otp_lifetime_mins * 60) ∧
    (∀ t : TokenType, (generate_token_claims params t lt now salt).slt = salt) := by
  refine ⟨?_, ?_, ?_, fun t => rfl⟩
  · rw [generate_token_claims]
    simp only [lifetime_sec]
    omega
  · rw [generate_token_claims]
    simp only [lifetime_sec]
    omega
  · rw [generate_token_claims]
    simp only [lifetime_sec]
    omega

/-- Witness for C8: the three lifetime formulas at the concrete configuration
of 30 access minutes, 30 refresh days and 8 OTP minutes, at clock reading
1700000000 with salt 42. -/
theorem c8_lifetime_formula_witness :
    1700000000 + 30 * 60 < 2 ^ 64 ∧
    1700000000 + 30 * 24 * 60 * 60 < 2 ^ 64 ∧
    1700000000 + 8 * 60 * 2 < 2 ^ 64 ∧
    ((generate_token_claims ⟨sampleUid, asciiBytes "ab", asciiBytes "USD"⟩ TokenType.access
        ⟨30, 30, 8⟩ 1700000000 42).exp = 1700000000 + 30 * 60 ∧
      (generate_token_claims ⟨sampleUid, asciiBytes "ab", asciiBytes "USD"⟩ TokenType.refresh
        ⟨30, 30, 8⟩ 1700000000 42).exp = 1700000000 + 30 * 24 * 60 * 60 ∧
      (generate_token_claims ⟨sampleUid, asciiBytes "ab", asciiBytes "USD"⟩ TokenType.signIn
        ⟨30, 30, 8⟩ 1700000000 42).exp = 1700000000 + 2 * (8 * 60) ∧
      (∀ t : TokenType, (generate_token_claims ⟨sampleUid, asciiBytes "ab", asciiBytes "USD"⟩ t
        ⟨30, 30, 8⟩ 1700000000 42).slt = 42)) :=
  ⟨by decide, by decide, by decide,
    c8_lifetime_formula ⟨sampleUid, asciiBytes "ab", asciiBytes "USD"⟩ ⟨30, 30, 8⟩
      1700000000 42 (by decide) (by decide) (by decide)⟩

/-! ### C9 — self-referential error formatting -/

/-- C9 (code bug): the `Display` implementation of `TokenError` has explicit
arms only for `DatabaseError` and `InvalidTokenType`; its catch-all arm
formats `self` again, so formatting any of the five remaining variants
consumes every amount of recursion fuel without producing output — the
formatting never terminates — while the two explicit arms terminate
immediately at any fuel. -/
theorem c9_display_self_referential :
    ∀ fuel : Nat,
      tokenErrorDisplay fuel TokenError.tokenInvalid = none ∧
      tokenErrorDisplay fuel TokenError.tokenBlacklisted = none ∧
      tokenErrorDisplay fuel TokenError.tokenExpired = none ∧
      tokenErrorDisplay fuel TokenError.systemResourceAccessFailure = none ∧
      tokenErrorDisplay fuel TokenError.wrongTokenType = none ∧
      (∀ v, tokenErrorDisplay fuel (TokenError.invalidTokenType v) =
        some (asciiBytes "InvalidTokenType: " ++ tokenTypeErrorMsg v)) ∧
      (∀ e, tokenErrorDisplay fuel (TokenError.databaseError e) =
        some (asciiBytes "DatabaseError: " ++ dbErrorMsg e)) := by
  intro fuel
  induction fuel with
  | zero => exact ⟨rfl, rfl, rfl, rfl, rfl, fun v => rfl, fun e => rfl⟩
  | succ n ih =>
    refine ⟨?_, ?_, ?_, ?_, ?_, fun v => rfl, fun e => rfl⟩
    · rw [show tokenErrorDisplay (n + 1) TokenError.tokenInvalid =
        (tokenErrorDisplay n TokenError.tokenInvalid).map
          (fun s => asciiBytes "Error: " ++ s) from rfl, ih.1]
      rfl
    · rw [show tokenErrorDisplay (n + 1) TokenError.tokenBlacklisted =
        (tokenErrorDisplay n TokenError.tokenBlacklisted).map
          (fun s => asciiBytes "Error: " ++ s) from rfl, ih.2.1]
      rfl
    · rw [show tokenErrorDisplay (n + 1) TokenError.tokenExpired =
        (tokenErrorDisplay n TokenError.tokenExpired).map
          (fun s => asciiBytes "Error: " ++ s) from rfl, ih.2.2.1]
      rfl
    · rw [show tokenErrorDisplay (n + 1) TokenError.systemResourceAccessFailure =
        (tokenErrorDisplay n TokenError.systemResourceAccessFailure).map
          (fun s => asciiBytes "Error: " ++ s) from rfl, ih.2.2.2.1]
      rfl
    · rw [show tokenErrorDisplay (n + 1) TokenError.wrongTokenType =
        (tokenErrorDisplay n TokenError.wrongTokenType).map
          (fun s => asciiBytes "Error: " ++ s) from rfl, ih.2.2.2.2.1]
      rfl

end BudgetApp
